import Mathlib

/-!
# Verification of the caremap track service

A shallow embedding of `src/services/core/TrackService.ts` in Lean 4, together
with theorems settling the specification claims about its date normalization,
subscription inference, conditional question visibility, summary generation,
and custom-goal CRUD logic.

Modelling conventions:

* JavaScript `Date` values are modelled as local civil datetimes (year, month
  1-12, day, minutes past local midnight).  The JavaScript runtime's local
  timezone is modelled as a constant offset `tz` (minutes east of UTC, no DST),
  threaded through every function that constructs or reads a `Date`.
  `new Date(y, monthIndex, day)` normalizes out-of-range fields and applies the
  two-digit-year quirk (years 0..99 become 1900..1999); `new Date("YYYY-MM-DD")`
  parses as UTC midnight, which local-time accessors then read shifted by `tz`.
* `JSON.parse` is modelled by an executable recursive-descent parser over the
  JSON grammar restricted to integer numeric literals and the single-character
  escapes; answers and display conditions in this service use only that
  fragment.  A string the model fails to parse is a string `JSON.parse` throws
  on (for the inputs this service exchanges).
* Database tables are lists of rows in insertion order; `getFirstByFields` is
  the first match, `insert` appends with a fresh id from a counter,
  `updateByFields` maps over rows, `deleteByFields` filters.  `uuidv4` and the
  inline `Date.now()`-based codes are modelled as draws from a fresh-code
  counter; timestamps from the external clock are modelled as datetime values.
-/

namespace Caremap

/-! ## Characters, digits and numerals -/

/-- Is `c` an ASCII decimal digit? -/
def isDigitCh (c : Char) : Bool := 48 ≤ c.toNat && c.toNat ≤ 57

/-- Numeric value of a digit character. -/
def digitVal (c : Char) : Nat := c.toNat - 48

/-- Digit character for `n % 10`. -/
def digitCh (n : Nat) : Char := Char.ofNat (n % 10 + 48)

/-- Decimal digits of `n`, most significant first, via explicit fuel so the
definition is structural and kernel-reducible. -/
def natCharsAux : Nat → Nat → List Char → List Char
  | 0, _, acc => acc
  | fuel + 1, n, acc =>
    if n < 10 then digitCh n :: acc
    else natCharsAux fuel (n / 10) (digitCh n :: acc)

/-- Decimal digit characters of a natural number (JS `String(n)` for `n ≥ 0`). -/
def natChars (n : Nat) : List Char := natCharsAux (n + 1) n []

/-- JS `String(n)` for an integer. -/
def intChars (n : Int) : List Char :=
  if n < 0 then '-' :: natChars n.natAbs else natChars n.natAbs

/-- Value of a list of digit characters read in base 10. -/
def digitsVal (cs : List Char) : Nat := cs.foldl (fun acc c => 10 * acc + digitVal c) 0

/-- JS `String.prototype.padStart(2, '0')`. -/
def pad2 (cs : List Char) : List Char := if cs.length < 2 then '0' :: cs else cs

/-- Left-pad with zeros to length 4 (used only to build four-digit year
strings for ISO-format inputs in theorem statements). -/
def pad4 (cs : List Char) : List Char :=
  List.replicate (4 - cs.length) '0' ++ cs

/-- JS `parseInt(s, 10)`: skip leading whitespace, read an optional sign and
then a maximal run of leading digits; `none` models `NaN`. -/
def parseIntJS (cs : List Char) : Option Int :=
  let cs1 := cs.dropWhile (fun c => c = ' ' || c = '\t' || c = '\n' || c = '\r')
  let neg : Bool := match cs1 with | c :: _ => c = '-' | [] => false
  let hasSign : Bool := match cs1 with | c :: _ => c = '-' || c = '+' | [] => false
  let body := if hasSign then cs1.tail else cs1
  let digits := body.takeWhile isDigitCh
  if digits.isEmpty then none
  else if neg then some (-(digitsVal digits : Int))
  else some (digitsVal digits : Int)

/-- JS `String.prototype.split('-')`. -/
def splitDash : List Char → List (List Char)
  | [] => [[]]
  | c :: cs =>
    if c = '-' then [] :: splitDash cs
    else
      match splitDash cs with
      | [] => [[c]]
      | p :: ps => (c :: p) :: ps

/-! ## The Gregorian calendar and the JS `Date` model -/

/-- Gregorian leap-year test. -/
def isLeap (y : Int) : Bool := decide ((y % 4 = 0 ∧ y % 100 ≠ 0) ∨ y % 400 = 0)

/-- Length of month `m` (1-12) of year `y`. -/
def daysInMonth (y m : Int) : Int :=
  if m = 2 then (if isLeap y then 29 else 28)
  else if m = 4 ∨ m = 6 ∨ m = 9 ∨ m = 11 then 30
  else 31

/-- Days in months strictly before month `m` of a common year. -/
def daysBeforeMonth (m : Int) : Int :=
  if m ≤ 1 then 0 else if m = 2 then 31 else if m = 3 then 59
  else if m = 4 then 90 else if m = 5 then 120 else if m = 6 then 151
  else if m = 7 then 181 else if m = 8 then 212 else if m = 9 then 243
  else if m = 10 then 273 else if m = 11 then 304 else 334

/-- Number of leap years in `1..y-1`. -/
def leapsBefore (y : Int) : Int := (y - 1) / 4 - (y - 1) / 100 + (y - 1) / 400

/-- Day count of civil date `(y, m, d)` relative to the Unix epoch 1970-01-01;
affine in `d`, so it extends to out-of-range days. -/
def toDay (y m d : Int) : Int :=
  365 * (y - 1) + leapsBefore y + daysBeforeMonth m +
    (if 2 < m ∧ isLeap y then 1 else 0) + (d - 1) - 719162

/-- JS `Date.prototype.getDay`: 0 = Sunday .. 6 = Saturday, of an epoch day
(1970-01-01 was a Thursday). -/
def weekdayOfDay (z : Int) : Int := (z + 4) % 7

/-- A valid JS `Date`, stored as its local civil datetime: year, month 1-12,
day of month, and minutes past local midnight. -/
structure JSDate where
  year : Int
  month : Int
  day : Int
  mins : Int
deriving DecidableEq, Repr

/-- Epoch-minute value of a date (what JS `Date` comparison compares, up to
the constant local offset). -/
def dtVal (d : JSDate) : Int := 1440 * toDay d.year d.month d.day + d.mins

/-- Normalize an out-of-range day of month by borrowing from or carrying into
adjacent months, as the JS `Date` constructor and `setDate` do.  Fuel-driven
so the definition is structural; callers pass ample fuel. -/
def normDays : Nat → Int → Int → Int → Int × Int × Int
  | 0, y, m, d => (y, m, d)
  | fuel + 1, y, m, d =>
    if d < 1 then
      let y' := if m = 1 then y - 1 else y
      let m' := if m = 1 then 12 else m - 1
      normDays fuel y' m' (d + daysInMonth y' m')
    else if daysInMonth y m < d then
      let y' := if m = 12 then y + 1 else y
      let m' := if m = 12 then 1 else m + 1
      normDays fuel y' m' (d - daysInMonth y m)
    else (y, m, d)

/-- `Date.prototype.setDate`: replace the day of month (possibly out of
range), renormalizing. -/
def setDate (dt : JSDate) (d : Int) : JSDate :=
  let c := normDays (d.natAbs + 24) dt.year dt.month d
  ⟨c.1, c.2.1, c.2.2, dt.mins⟩

/-- The JS `Date(y, monthIndex, day)` constructor: two-digit-year quirk, then
month and day normalization; local midnight. -/
def mkLocalDate (y mIdx dom : Int) : JSDate :=
  let y0 := if 0 ≤ y ∧ y ≤ 99 then 1900 + y else y
  let y1 := y0 + mIdx / 12
  let m1 := mIdx % 12 + 1
  let c := normDays (dom.natAbs + 24) y1 m1 dom
  ⟨c.1, c.2.1, c.2.2, 0⟩

/-! ## Date helpers of `TrackService.ts`

`tz` is the runtime's local offset from UTC in minutes (constant, `|tz| < 1440`).
An `Option JSDate` result models a possibly Invalid Date. -/

/-- The test `/^\d{4}-\d{2}-\d{2}/.test(dateStr)`. -/
def isoPrefixTest (cs : List Char) : Bool :=
  match cs with
  | c0 :: c1 :: c2 :: c3 :: c4 :: c5 :: c6 :: c7 :: c8 :: c9 :: _ =>
    isDigitCh c0 && isDigitCh c1 && isDigitCh c2 && isDigitCh c3 && (c4 == '-') &&
      isDigitCh c5 && isDigitCh c6 && (c7 == '-') && isDigitCh c8 && isDigitCh c9
  | _ => false

/-- `new Date("YYYY-MM-DD")` for a ten-character date-only string: UTC
midnight of the written date when it is a valid civil date, Invalid Date
otherwise, then read as a local datetime by shifting `tz` minutes.  Strings
that pass the prefix test but are not exactly ten characters are modelled as
Invalid Date (the service only exchanges date-only strings). -/
def parseIsoCore (tz : Int) (c0 c1 c2 c3 c4 c5 c6 c7 c8 c9 : Char) : Option JSDate :=
  if c4 = '-' ∧ c7 = '-' then
    let y : Int := (digitsVal [c0, c1, c2, c3] : Nat)
    let m : Int := (digitsVal [c5, c6] : Nat)
    let dd : Int := (digitsVal [c8, c9] : Nat)
    if 1 ≤ m ∧ m ≤ 12 ∧ 1 ≤ dd ∧ dd ≤ daysInMonth y m then
      if 0 ≤ tz then some ⟨y, m, dd, tz⟩
      else
        let c := normDays ((dd - 1).natAbs + 24) y m (dd - 1)
        some ⟨c.1, c.2.1, c.2.2, 1440 + tz⟩
    else none
  else none

def parseIsoDate (tz : Int) (cs : List Char) : Option JSDate :=
  match cs with
  | [c0, c1, c2, c3, c4, c5, c6, c7, c8, c9] =>
    parseIsoCore tz c0 c1 c2 c3 c4 c5 c6 c7 c8 c9
  | _ => none

/-- `x || 1` for a `parseInt` result: `NaN` and `0` are falsy. -/
def jsOr1 : Option Int → Int
  | none => 1
  | some v => if v = 0 then 1 else v

/-- `parseMMDDYYYY` (TrackService.ts lines 34-38). -/
def parseMMDDYYYY (tz : Int) (s : String) : Option JSDate :=
  if isoPrefixTest s.data then parseIsoDate tz s.data
  else
    let parts := splitDash s.data
    let mm := jsOr1 ((parts.get? 0).bind parseIntJS)
    let dd := jsOr1 ((parts.get? 1).bind parseIntJS)
    match (parts.get? 2).bind parseIntJS with
    | none => none
    | some yyyy => some (mkLocalDate yyyy (mm - 1) dd)

/-- `formatMMDDYYYY` (lines 40-45): `MM-DD-YYYY` with two-digit padding. -/
def formatMMDDYYYY (d : JSDate) : String :=
  String.mk (pad2 (intChars d.month) ++ '-' :: pad2 (intChars d.day) ++ '-' :: intChars d.year)

/-- `getMonday` (lines 47-53): move to the Monday of the date's week
(Sunday moves back six days). -/
def getMonday (dt : JSDate) : JSDate :=
  let day := weekdayOfDay (toDay dt.year dt.month dt.day)
  let diff := if day = 0 then -6 else 1 - day
  setDate dt (dt.day + diff)

/-- Tracking frequencies; the enum's string values are modelled from the spec
("daily/weekly/monthly"). -/
def FreqDaily : String := "daily"
def FreqWeekly : String := "weekly"
def FreqMonthly : String := "monthly"

/-- Frequency dispatch of `normalizeDateByFrequency` on the parsed date. -/
def normalizeParsed (frequency : String) : Option JSDate → String
  | none => "NaN-NaN-NaN"
  | some date =>
    if frequency == FreqDaily then formatMMDDYYYY date
    else if frequency == FreqWeekly then formatMMDDYYYY (getMonday date)
    else formatMMDDYYYY (mkLocalDate date.year (date.month - 1) 1)

/-- `normalizeDateByFrequency` (lines 55-62).  An Invalid Date formats as
"NaN-NaN-NaN" (JS stringifies each `NaN` field). -/
def normalizeDateByFrequency (tz : Int) (dateStr : String) (frequency : String) : String :=
  normalizeParsed frequency (parseMMDDYYYY tz dateStr)

/-- Frequency dispatch of `shouldCreateEntryForDate` on the parsed date. -/
def boundaryParsed (frequency : String) : Option JSDate → Bool
  | none => if frequency == FreqDaily then true else false
  | some d =>
    if frequency == FreqDaily then true
    else if frequency == FreqWeekly then weekdayOfDay (toDay d.year d.month d.day) == 1
    else d.day == 1

/-- `shouldCreateEntryForDate` (lines 64-71): daily always; weekly on Mondays;
monthly on the 1st.  On an Invalid Date the weekday/day reads are `NaN`, so
the comparisons are false. -/
def shouldCreateEntryForDate (tz : Int) (dateStr : String) (frequency : String) : Bool :=
  boundaryParsed frequency (parseMMDDYYYY tz dateStr)

/-! ## Lemmas about numerals and string pieces -/

theorem digitVal_ofNat (k : Nat) (h : k < 10) : digitVal (Char.ofNat (k + 48)) = k := by
  interval_cases k <;> decide

theorem isDigit_ofNat (k : Nat) (h : k < 10) : isDigitCh (Char.ofNat (k + 48)) = true := by
  interval_cases k <;> decide

theorem digitVal_digitCh (n : Nat) : digitVal (digitCh n) = n % 10 :=
  digitVal_ofNat (n % 10) (Nat.mod_lt _ (by norm_num))

theorem isDigit_digitCh (n : Nat) : isDigitCh (digitCh n) = true :=
  isDigit_ofNat (n % 10) (Nat.mod_lt _ (by norm_num))

theorem natCharsAux_eq (n : Nat) : ∀ (fuel : Nat) (acc : List Char), n < fuel →
    natCharsAux fuel n acc = natChars n ++ acc := by
  induction n using Nat.strong_induction_on with
  | _ n ih =>
    intro fuel acc hf
    match fuel, hf with
    | f + 1, hf =>
      by_cases h10 : n < 10
      · simp [natCharsAux, natChars, h10]
      · have hdiv : n / 10 < n := Nat.div_lt_self (by omega) (by norm_num)
        have hstep : ∀ g (ac : List Char), natCharsAux (g + 1) n ac =
            natCharsAux g (n / 10) (digitCh n :: ac) := by
          intro g ac; simp [natCharsAux, h10]
        rw [hstep, ih (n / 10) hdiv f _ (by omega)]
        conv_rhs => rw [natChars, hstep, ih (n / 10) hdiv n _ (by omega)]
        simp

theorem natChars_lt10 (n : Nat) (h : n < 10) : natChars n = [digitCh n] := by
  simp [natChars, natCharsAux, h]

theorem natChars_ge10 (n : Nat) (h : 10 ≤ n) :
    natChars n = natChars (n / 10) ++ [digitCh n] := by
  have hdiv : n / 10 < n := Nat.div_lt_self (by omega) (by norm_num)
  rw [natChars, show natCharsAux (n + 1) n [] = natCharsAux n (n / 10) [digitCh n] by
    simp [natCharsAux, show ¬ n < 10 by omega]]
  exact natCharsAux_eq (n / 10) n [digitCh n] hdiv

theorem digitsVal_append_single (cs : List Char) (c : Char) :
    digitsVal (cs ++ [c]) = 10 * digitsVal cs + digitVal c := by
  simp [digitsVal, List.foldl_append]

theorem digitsVal_natChars (n : Nat) : digitsVal (natChars n) = n := by
  induction n using Nat.strong_induction_on with
  | _ n ih =>
    by_cases h10 : n < 10
    · rw [natChars_lt10 n h10]
      simp [digitsVal, digitVal_digitCh, Nat.mod_eq_of_lt h10]
    · rw [natChars_ge10 n (by omega), digitsVal_append_single,
        ih (n / 10) (Nat.div_lt_self (by omega) (by norm_num)), digitVal_digitCh]
      omega

theorem natChars_all_digits (n : Nat) : ∀ c ∈ natChars n, isDigitCh c = true := by
  induction n using Nat.strong_induction_on with
  | _ n ih =>
    by_cases h10 : n < 10
    · rw [natChars_lt10 n h10]
      intro c hc
      simp at hc
      subst hc
      exact isDigit_digitCh n
    · rw [natChars_ge10 n (by omega)]
      intro c hc
      rcases List.mem_append.mp hc with h | h
      · exact ih (n / 10) (Nat.div_lt_self (by omega) (by norm_num)) c h
      · simp at h; subst h; exact isDigit_digitCh n

theorem natChars_len1 (n : Nat) (h : n < 10) : (natChars n).length = 1 := by
  rw [natChars_lt10 n h]; rfl

theorem natChars_len2 (n : Nat) (h1 : 10 ≤ n) (h2 : n < 100) : (natChars n).length = 2 := by
  rw [natChars_ge10 n h1]
  simp [natChars_len1 (n / 10) (by omega)]

theorem natChars_len3 (n : Nat) (h1 : 100 ≤ n) (h2 : n < 1000) : (natChars n).length = 3 := by
  rw [natChars_ge10 n (by omega)]
  simp [natChars_len2 (n / 10) (by omega) (by omega)]

theorem natChars_len4 (n : Nat) (h1 : 1000 ≤ n) (h2 : n < 10000) : (natChars n).length = 4 := by
  rw [natChars_ge10 n (by omega)]
  simp [natChars_len3 (n / 10) (by omega) (by omega)]

theorem digit_ne_dash {c : Char} (h : isDigitCh c = true) : ¬ c = '-' := by
  intro he; subst he; exact absurd h (by decide)

theorem digit_ne_plus {c : Char} (h : isDigitCh c = true) : ¬ c = '+' := by
  intro he; subst he; exact absurd h (by decide)

theorem digit_not_ws {c : Char} (h : isDigitCh c = true) :
    (c = ' ' || c = '\t' || c = '\n' || c = '\r') = false := by
  rcases eq_or_ne c ' ' with he | hne1
  · subst he; exact absurd h (by decide)
  rcases eq_or_ne c '\t' with he | hne2
  · subst he; exact absurd h (by decide)
  rcases eq_or_ne c '\n' with he | hne3
  · subst he; exact absurd h (by decide)
  rcases eq_or_ne c '\r' with he | hne4
  · subst he; exact absurd h (by decide)
  simp [hne1, hne2, hne3, hne4]

theorem takeWhile_all {p : Char → Bool} (cs : List Char) (h : ∀ c ∈ cs, p c = true) :
    cs.takeWhile p = cs := by
  induction cs with
  | nil => rfl
  | cons c rest ih =>
    rw [List.takeWhile_cons, h c (by simp)]
    simp [ih (fun x hx => h x (by simp [hx]))]

theorem parseIntJS_digits (cs : List Char) (h1 : cs ≠ [])
    (h2 : ∀ c ∈ cs, isDigitCh c = true) :
    parseIntJS cs = some ((digitsVal cs : Nat) : Int) := by
  match cs, h1 with
  | c0 :: rest, _ =>
    have hd0 := h2 c0 (by simp)
    unfold parseIntJS
    rw [List.dropWhile_cons, digit_not_ws hd0]
    simp [digit_ne_dash hd0, digit_ne_plus hd0, takeWhile_all _ h2]

theorem splitDash_no_dash (xs : List Char) (h : '-' ∉ xs) : splitDash xs = [xs] := by
  induction xs with
  | nil => rfl
  | cons c rest ih =>
    have hc : ¬ c = '-' := by intro he; exact h (by simp [he])
    rw [splitDash, if_neg hc, ih (fun hm => h (by simp [hm]))]

theorem splitDash_append (xs rest : List Char) (h : '-' ∉ xs) :
    splitDash (xs ++ '-' :: rest) = xs :: splitDash rest := by
  induction xs with
  | nil => simp [splitDash]
  | cons c xs' ih =>
    have hc : ¬ c = '-' := by intro he; exact h (by simp [he])
    have ih' := ih (fun hm => h (by simp [hm]))
    rw [List.cons_append, splitDash, if_neg hc, ih']

/-! ## Calendar lemmas -/

theorem daysInMonth_bounds (y m : Int) (h1 : 1 ≤ m) (h2 : m ≤ 12) :
    28 ≤ daysInMonth y m ∧ daysInMonth y m ≤ 31 := by
  unfold daysInMonth
  split_ifs <;> omega

theorem leapsBefore_step (y : Int) :
    leapsBefore y = leapsBefore (y - 1) + (if isLeap (y - 1) then 1 else 0) := by
  unfold leapsBefore isLeap
  simp only [decide_eq_true_eq]
  split_ifs with h
  · omega
  · omega

theorem toDay_borrow (y m d : Int) (h1 : 1 ≤ m) (h2 : m ≤ 12) :
    toDay (if m = 1 then y - 1 else y) (if m = 1 then 12 else m - 1)
      (d + daysInMonth (if m = 1 then y - 1 else y) (if m = 1 then 12 else m - 1)) =
    toDay y m d := by
  by_cases hm : m = 1
  · subst hm
    have hstep := leapsBefore_step y
    simp only [if_pos rfl] at *
    unfold toDay daysInMonth daysBeforeMonth
    by_cases hL : isLeap (y - 1) <;> simp [hL] at hstep ⊢ <;> omega
  · simp only [if_neg hm]
    have h2' : 2 ≤ m := by omega
    interval_cases m <;>
      · unfold toDay daysInMonth daysBeforeMonth
        by_cases hL : isLeap y <;> simp [hL] <;> omega

theorem normDays_succ (fuel : Nat) (y m d : Int) :
    normDays (fuel + 1) y m d =
      if d < 1 then
        normDays fuel (if m = 1 then y - 1 else y) (if m = 1 then 12 else m - 1)
          (d + daysInMonth (if m = 1 then y - 1 else y) (if m = 1 then 12 else m - 1))
      else if daysInMonth y m < d then
        normDays fuel (if m = 12 then y + 1 else y) (if m = 12 then 1 else m + 1)
          (d - daysInMonth y m)
      else (y, m, d) := rfl

theorem normDays_valid (y m d : Int) (h1 : 1 ≤ d) (h2 : d ≤ daysInMonth y m) (fuel : Nat) :
    normDays (fuel + 1) y m d = (y, m, d) := by
  rw [normDays_succ, if_neg (by omega), if_neg (by omega)]

theorem normDays_spec (y m d : Int) (h1 : 1 ≤ m) (h2 : m ≤ 12) (h3 : -26 ≤ d)
    (h4 : d ≤ daysInMonth y m) (fuel : Nat) :
    ∃ y' m' d', normDays (fuel + 2) y m d = (y', m', d') ∧
      1 ≤ m' ∧ m' ≤ 12 ∧ 1 ≤ d' ∧ d' ≤ daysInMonth y' m' ∧
      toDay y' m' d' = toDay y m d ∧ (y' = y ∨ y' = y - 1) := by
  by_cases hd : 1 ≤ d
  · refine ⟨y, m, d, ?_, h1, h2, hd, h4, rfl, Or.inl rfl⟩
    have : fuel + 2 = (fuel + 1) + 1 := rfl
    rw [this]
    exact normDays_valid y m d hd h4 (fuel + 1)
  · have hm1b : 1 ≤ (if m = 1 then 12 else m - 1) ∧ (if m = 1 then 12 else m - 1) ≤ 12 := by
      split_ifs <;> omega
    have hdim := daysInMonth_bounds (if m = 1 then y - 1 else y) (if m = 1 then 12 else m - 1)
      hm1b.1 hm1b.2
    have hstep : normDays (fuel + 2) y m d =
        normDays (fuel + 1) (if m = 1 then y - 1 else y) (if m = 1 then 12 else m - 1)
          (d + daysInMonth (if m = 1 then y - 1 else y) (if m = 1 then 12 else m - 1)) := by
      have h22 : fuel + 2 = (fuel + 1) + 1 := rfl
      rw [h22, normDays_succ, if_pos (by omega)]
    have hval := normDays_valid (if m = 1 then y - 1 else y) (if m = 1 then 12 else m - 1)
      (d + daysInMonth (if m = 1 then y - 1 else y) (if m = 1 then 12 else m - 1))
      (by omega) (by omega) fuel
    refine ⟨_, _, _, by rw [hstep, hval], hm1b.1, hm1b.2, by omega, by omega,
      toDay_borrow y m d h1 h2, ?_⟩
    split_ifs <;> simp

theorem mkLocalDate_valid (y m d : Int) (hy : 100 ≤ y) (h1 : 1 ≤ m) (h2 : m ≤ 12)
    (hd1 : 1 ≤ d) (hd2 : d ≤ daysInMonth y m) :
    mkLocalDate y (m - 1) d = ⟨y, m, d, 0⟩ := by
  have hdiv : (m - 1) / 12 = 0 := by omega
  have hmod : (m - 1) % 12 = m - 1 := by omega
  have he : y + 0 = y := by ring
  have he2 : m - 1 + 1 = m := by ring
  have hf : d.natAbs + 24 = (d.natAbs + 23) + 1 := rfl
  simp only [mkLocalDate, if_neg (show ¬ (0 ≤ y ∧ y ≤ 99) by omega), hdiv, hmod, he, he2]
  rw [hf, normDays_valid y m d hd1 hd2 _]

/-! ## Round-trip between `formatMMDDYYYY` and `parseMMDDYYYY` -/

theorem digitsVal_pair (a b : Char) : digitsVal [a, b] = 10 * digitVal a + digitVal b := by
  simp [digitsVal, List.foldl]

theorem pad2_intChars (m : Int) (h1 : 1 ≤ m) (h2 : m ≤ 99) :
    ∃ a b, pad2 (intChars m) = [a, b] ∧ isDigitCh a = true ∧ isDigitCh b = true ∧
      ((digitsVal [a, b] : Nat) : Int) = m := by
  have hm : ¬ m < 0 := by omega
  have hk1 : 1 ≤ m.natAbs := by omega
  have hk2 : m.natAbs ≤ 99 := by omega
  unfold intChars
  rw [if_neg hm]
  by_cases h10 : m.natAbs < 10
  · rw [natChars_lt10 _ h10]
    refine ⟨'0', digitCh m.natAbs, by simp [pad2], by decide, isDigit_digitCh _, ?_⟩
    rw [digitsVal_pair, digitVal_digitCh]
    have : digitVal '0' = 0 := by decide
    rw [this]
    omega
  · rw [natChars_ge10 _ (by omega), natChars_lt10 (m.natAbs / 10) (by omega)]
    refine ⟨digitCh (m.natAbs / 10), digitCh m.natAbs, by simp [pad2],
      isDigit_digitCh _, isDigit_digitCh _, ?_⟩
    rw [digitsVal_pair, digitVal_digitCh, digitVal_digitCh]
    have : m.natAbs / 10 % 10 = m.natAbs / 10 := Nat.mod_eq_of_lt (by omega)
    rw [this]
    omega

theorem parseIntJS_intChars (y : Int) (hy : 0 ≤ y) : parseIntJS (intChars y) = some y := by
  have hm : ¬ y < 0 := by omega
  unfold intChars
  rw [if_neg hm]
  rw [parseIntJS_digits (natChars y.natAbs) (by
      intro h
      have := natChars_len1 0 (by norm_num)
      cases hc : y.natAbs with
      | zero => rw [hc] at h; exact absurd (by rw [natChars_lt10 0 (by norm_num)] at h; exact h) (by simp)
      | succ n =>
        rw [hc] at h
        by_cases h10 : n + 1 < 10
        · rw [natChars_lt10 _ h10] at h; exact absurd h (by simp)
        · rw [natChars_ge10 _ (by omega)] at h; exact absurd h (by simp))
    (natChars_all_digits y.natAbs)]
  rw [digitsVal_natChars]
  simp only [Option.some.injEq]
  omega

theorem iso_false_of_dash3 (a b : Char) (cs : List Char) :
    isoPrefixTest (a :: b :: '-' :: cs) = false := by
  have hnd : isDigitCh '-' = false := by decide
  rcases cs with _ | ⟨c3, _ | ⟨c4, _ | ⟨c5, _ | ⟨c6, _ | ⟨c7, _ | ⟨c8, _ | ⟨c9, rest⟩⟩⟩⟩⟩⟩⟩ <;>
    simp [isoPrefixTest, hnd]

theorem jsOr1_of_ne (v : Int) (h : ¬ v = 0) : jsOr1 (some v) = v := by
  simp [jsOr1, h]

theorem parse_format (tz y m d mins : Int) (hy1 : 100 ≤ y) (hy2 : y ≤ 9999)
    (h1 : 1 ≤ m) (h2 : m ≤ 12) (hd1 : 1 ≤ d) (hd2 : d ≤ daysInMonth y m) :
    parseMMDDYYYY tz (formatMMDDYYYY ⟨y, m, d, mins⟩) = some ⟨y, m, d, 0⟩ := by
  obtain ⟨a, b, hab, hda, hdb, hvab⟩ := pad2_intChars m h1 (by omega)
  obtain ⟨e, f, hef, hde, hdf, hvef⟩ := pad2_intChars d hd1
    (by have := daysInMonth_bounds y m h1 h2; omega)
  have hdata : (formatMMDDYYYY ⟨y, m, d, mins⟩).data =
      a :: b :: '-' :: e :: f :: '-' :: intChars y := by
    show (pad2 (intChars m) ++ '-' :: pad2 (intChars d) ++ '-' :: intChars y) = _
    rw [hab, hef]
    rfl
  unfold parseMMDDYYYY
  rw [hdata, iso_false_of_dash3]
  simp only [Bool.false_eq_true, if_false]
  have hsplit : splitDash (a :: b :: '-' :: e :: f :: '-' :: intChars y) =
      [a, b] :: [e, f] :: [intChars y] := by
    have h1s := splitDash_append [a, b] (e :: f :: '-' :: intChars y)
      (by intro hmem; rcases List.mem_pair.mp hmem with h | h
          · exact digit_ne_dash hda h.symm
          · exact digit_ne_dash hdb h.symm)
    have h2s := splitDash_append [e, f] (intChars y)
      (by intro hmem; rcases List.mem_pair.mp hmem with h | h
          · exact digit_ne_dash hde h.symm
          · exact digit_ne_dash hdf h.symm)
    have h3s : splitDash (intChars y) = [intChars y] := by
      apply splitDash_no_dash
      intro hmem
      unfold intChars at hmem
      rw [if_neg (by omega)] at hmem
      exact digit_ne_dash (natChars_all_digits y.natAbs '-' hmem) rfl
    simp only [List.cons_append, List.nil_append] at h1s h2s
    rw [h1s, h2s, h3s]
  rw [hsplit]
  simp only [List.get?, Option.some_bind]
  rw [parseIntJS_digits [a, b] (by simp) (by
        intro c hc; rcases List.mem_pair.mp hc with h | h <;> subst h <;> assumption),
      parseIntJS_digits [e, f] (by simp) (by
        intro c hc; rcases List.mem_pair.mp hc with h | h <;> subst h <;> assumption),
      parseIntJS_intChars y (by omega)]
  simp only [Option.bind_some]
  rw [hvab, hvef]
  rw [jsOr1_of_ne m (by omega), jsOr1_of_ne d (by omega)]
  rw [mkLocalDate_valid y m d (by omega) h1 h2 hd1 hd2]

/-! ## ISO-format strings and `getMonday` -/

/-- Canonical `YYYY-MM-DD` rendering of a civil date, used to state claims
about the ISO fallback of the parser. -/
def isoStr (y m d : Int) : String :=
  String.mk (pad4 (natChars y.natAbs) ++ '-' :: pad2 (natChars m.natAbs) ++
    '-' :: pad2 (natChars d.natAbs))

theorem digitsVal_cons_zero (cs : List Char) : digitsVal ('0' :: cs) = digitsVal cs := by
  simp [digitsVal, List.foldl, digitVal]

theorem digitsVal_zeros (k : Nat) (cs : List Char) :
    digitsVal (List.replicate k '0' ++ cs) = digitsVal cs := by
  induction k with
  | zero => simp
  | succ n ih => rw [List.replicate_succ, List.cons_append, digitsVal_cons_zero, ih]

theorem pad4_spec (n : Nat) (h1 : 1 ≤ n) (h2 : n ≤ 9999) :
    (pad4 (natChars n)).length = 4 ∧ (∀ x ∈ pad4 (natChars n), isDigitCh x = true) ∧
      digitsVal (pad4 (natChars n)) = n := by
  have hlen : (natChars n).length = 1 ∨ (natChars n).length = 2 ∨
      (natChars n).length = 3 ∨ (natChars n).length = 4 := by
    by_cases ha : n < 10
    · exact Or.inl (natChars_len1 n ha)
    by_cases hb : n < 100
    · exact Or.inr (Or.inl (natChars_len2 n (by omega) hb))
    by_cases hc : n < 1000
    · exact Or.inr (Or.inr (Or.inl (natChars_len3 n (by omega) hc)))
    · exact Or.inr (Or.inr (Or.inr (natChars_len4 n (by omega) (by omega))))
  refine ⟨?_, ?_, ?_⟩
  · unfold pad4
    rw [List.length_append, List.length_replicate]
    omega
  · intro x hx
    unfold pad4 at hx
    rcases List.mem_append.mp hx with h | h
    · have := List.eq_of_mem_replicate h
      subst this
      decide
    · exact natChars_all_digits n x h
  · unfold pad4
    rw [digitsVal_zeros, digitsVal_natChars]

theorem exists_four (l : List Char) (h : l.length = 4) : ∃ a b c d, l = [a, b, c, d] := by
  rcases l with _ | ⟨a, _ | ⟨b, _ | ⟨c, _ | ⟨d, _ | ⟨e, t⟩⟩⟩⟩⟩ <;>
    first
      | exact ⟨_, _, _, _, rfl⟩
      | simp_all

theorem parse_iso (tz y m d : Int) (htz0 : 0 ≤ tz) (hy1 : 1 ≤ y) (hy2 : y ≤ 9999)
    (h1 : 1 ≤ m) (h2 : m ≤ 12) (hd1 : 1 ≤ d) (hd2 : d ≤ daysInMonth y m) :
    parseMMDDYYYY tz (isoStr y m d) = some ⟨y, m, d, tz⟩ := by
  obtain ⟨hl4, hdig4, hval4⟩ := pad4_spec y.natAbs (by omega) (by omega)
  obtain ⟨y0, y1, y2, y3, hy4⟩ := exists_four _ hl4
  have hmi : intChars m = natChars m.natAbs := by unfold intChars; rw [if_neg (by omega)]
  have hdi : intChars d = natChars d.natAbs := by unfold intChars; rw [if_neg (by omega)]
  obtain ⟨a, b, hab, hda, hdb, hvab⟩ := pad2_intChars m h1 (by omega)
  obtain ⟨e, f, hef, hde, hdf, hvef⟩ := pad2_intChars d hd1
    (by have := daysInMonth_bounds y m h1 h2; omega)
  rw [hmi] at hab
  rw [hdi] at hef
  have hdata : (isoStr y m d).data =
      y0 :: y1 :: y2 :: y3 :: '-' :: a :: b :: '-' :: [e, f] := by
    show (pad4 (natChars y.natAbs) ++ '-' :: pad2 (natChars m.natAbs) ++
      '-' :: pad2 (natChars d.natAbs)) = _
    rw [hy4, hab, hef]
    rfl
  rw [hy4] at hdig4 hval4
  have hdy0 := hdig4 y0 (by simp)
  have hdy1 := hdig4 y1 (by simp)
  have hdy2 := hdig4 y2 (by simp)
  have hdy3 := hdig4 y3 (by simp)
  unfold parseMMDDYYYY
  rw [hdata]
  rw [show isoPrefixTest (y0 :: y1 :: y2 :: y3 :: '-' :: a :: b :: '-' :: [e, f]) = true by
    simp [isoPrefixTest, hdy0, hdy1, hdy2, hdy3, hda, hdb, hde, hdf]]
  simp only [if_true]
  have hstep : parseIsoDate tz [y0, y1, y2, y3, '-', a, b, '-', e, f] =
      parseIsoCore tz y0 y1 y2 y3 '-' a b '-' e f := rfl
  rw [hstep]
  have hyv : ((digitsVal [y0, y1, y2, y3] : Nat) : Int) = y := by rw [hval4]; omega
  simp only [parseIsoCore, and_self, if_true]
  rw [hyv, hvab, hvef, if_pos ⟨h1, h2, hd1, hd2⟩, if_pos htz0]

theorem toDay_add (y m d k : Int) : toDay y m (d + k) = toDay y m d + k := by
  unfold toDay
  ring

theorem getMonday_spec (y m d mins : Int) (h1 : 1 ≤ m) (h2 : m ≤ 12) (hd1 : 1 ≤ d)
    (hd2 : d ≤ daysInMonth y m) :
    ∃ y' m' d', getMonday ⟨y, m, d, mins⟩ = ⟨y', m', d', mins⟩ ∧
      1 ≤ m' ∧ m' ≤ 12 ∧ 1 ≤ d' ∧ d' ≤ daysInMonth y' m' ∧
      toDay y' m' d' = toDay y m d - (weekdayOfDay (toDay y m d) + 6) % 7 ∧
      weekdayOfDay (toDay y' m' d') = 1 ∧ (y' = y ∨ y' = y - 1) := by
  have hwb : 0 ≤ weekdayOfDay (toDay y m d) ∧ weekdayOfDay (toDay y m d) < 7 := by
    unfold weekdayOfDay; omega
  set wd := weekdayOfDay (toDay y m d) with hwd
  set diff := if wd = 0 then (-6 : Int) else 1 - wd with hdiff
  have hdb : -6 ≤ diff ∧ diff ≤ 0 := by
    rw [hdiff]; split_ifs <;> omega
  have hfuel : (d + diff).natAbs + 24 = ((d + diff).natAbs + 22) + 2 := rfl
  obtain ⟨y', m', d', heq, hm1', hm2', hd1', hd2', htd, hyy⟩ :=
    normDays_spec y m (d + diff) h1 h2 (by omega) (by omega) ((d + diff).natAbs + 22)
  refine ⟨y', m', d', ?_, hm1', hm2', hd1', hd2', ?_, ?_, hyy⟩
  · simp only [getMonday, setDate, ← hwd, ← hdiff, hfuel, heq]
  · rw [htd, toDay_add]
    rw [hdiff] at *
    unfold weekdayOfDay at *
    split_ifs at * <;> omega
  · rw [htd, toDay_add]
    rw [hdiff] at *
    unfold weekdayOfDay at *
    split_ifs at * <;> omega

theorem getMonday_fixed (y m d mins : Int) (h1 : 1 ≤ m) (h2 : m ≤ 12) (hd1 : 1 ≤ d)
    (hd2 : d ≤ daysInMonth y m) (hmon : weekdayOfDay (toDay y m d) = 1) :
    getMonday ⟨y, m, d, mins⟩ = ⟨y, m, d, mins⟩ := by
  have hdiff : (if weekdayOfDay (toDay y m d) = 0 then (-6 : Int)
      else 1 - weekdayOfDay (toDay y m d)) = 0 := by
    rw [hmon]; norm_num
  have hfuel : (d + 0).natAbs + 24 = ((d + 0).natAbs + 23) + 1 := rfl
  simp only [getMonday, setDate, hdiff, hfuel]
  have h0 : d + 0 = d := by ring
  rw [h0] at *
  rw [normDays_valid y m d hd1 hd2 _]

/-! ## Claims C6 and C7: date normalization and bucket boundaries -/

/-- C6: for every valid calendar date rendered in the service's canonical
`MM-DD-YYYY` form (four-digit year), `normalizeDateByFrequency` is the
identity for daily, idempotent for every frequency string, maps a date to
the Monday of its week for weekly (Sunday moves back six days, i.e. the
result is exactly `(weekday + 6) % 7` days earlier and falls on a Monday),
and maps a date to the first of its month for monthly; all independent of
the runtime's UTC offset, since the `MM-DD-YYYY` path parses in local time. -/
theorem C6_normalize_idempotent (tz y m d : Int) (hy1 : 1000 ≤ y) (hy2 : y ≤ 9999)
    (hm1 : 1 ≤ m) (hm2 : m ≤ 12) (hd1 : 1 ≤ d) (hd2 : d ≤ daysInMonth y m) :
    normalizeDateByFrequency tz (formatMMDDYYYY ⟨y, m, d, 0⟩) FreqDaily
        = formatMMDDYYYY ⟨y, m, d, 0⟩ ∧
    (∀ f : String, normalizeDateByFrequency tz
        (normalizeDateByFrequency tz (formatMMDDYYYY ⟨y, m, d, 0⟩) f) f
        = normalizeDateByFrequency tz (formatMMDDYYYY ⟨y, m, d, 0⟩) f) ∧
    (∃ y' m' d', normalizeDateByFrequency tz (formatMMDDYYYY ⟨y, m, d, 0⟩) FreqWeekly
        = formatMMDDYYYY ⟨y', m', d', 0⟩ ∧
        toDay y' m' d' = toDay y m d - (weekdayOfDay (toDay y m d) + 6) % 7 ∧
        weekdayOfDay (toDay y' m' d') = 1) ∧
    normalizeDateByFrequency tz (formatMMDDYYYY ⟨y, m, d, 0⟩) FreqMonthly
        = formatMMDDYYYY ⟨y, m, 1, 0⟩ := by
  have hp := parse_format tz y m d 0 (by omega) hy2 hm1 hm2 hd1 hd2
  have hdimb := daysInMonth_bounds y m hm1 hm2
  obtain ⟨y', m', d', hmon, hm1', hm2', hd1', hd2', htd, hwd1, hyy⟩ :=
    getMonday_spec y m d 0 hm1 hm2 hd1 hd2
  have hy'1 : 100 ≤ y' := by rcases hyy with h | h <;> omega
  have hy'2 : y' ≤ 9999 := by rcases hyy with h | h <;> omega
  have hp' := parse_format tz y' m' d' 0 hy'1 hy'2 hm1' hm2' hd1' hd2'
  have hp1 := parse_format tz y m 1 0 (by omega) hy2 hm1 hm2 (by norm_num) (by omega)
  have hmk1 : mkLocalDate y (m - 1) 1 = ⟨y, m, 1, 0⟩ :=
    mkLocalDate_valid y m 1 (by omega) hm1 hm2 (by norm_num) (by omega)
  have hdaily : normalizeDateByFrequency tz (formatMMDDYYYY ⟨y, m, d, 0⟩) FreqDaily
      = formatMMDDYYYY ⟨y, m, d, 0⟩ := by
    simp only [normalizeDateByFrequency]
    rw [hp]
    simp only [normalizeParsed]
    rw [if_pos (by decide)]
  have hweekly : normalizeDateByFrequency tz (formatMMDDYYYY ⟨y, m, d, 0⟩) FreqWeekly
      = formatMMDDYYYY ⟨y', m', d', 0⟩ := by
    simp only [normalizeDateByFrequency]
    rw [hp]
    simp only [normalizeParsed]
    rw [if_neg (by decide), if_pos (by decide), hmon]
  have hmonthly : normalizeDateByFrequency tz (formatMMDDYYYY ⟨y, m, d, 0⟩) FreqMonthly
      = formatMMDDYYYY ⟨y, m, 1, 0⟩ := by
    simp only [normalizeDateByFrequency]
    rw [hp]
    simp only [normalizeParsed]
    rw [if_neg (by decide), if_neg (by decide)]
    show formatMMDDYYYY (mkLocalDate y (m - 1) 1) = _
    rw [hmk1]
  refine ⟨hdaily, ?_, ⟨y', m', d', hweekly, htd, hwd1⟩, hmonthly⟩
  intro f
  by_cases hfd : (f == FreqDaily) = true
  · have hinner : normalizeDateByFrequency tz (formatMMDDYYYY ⟨y, m, d, 0⟩) f
        = formatMMDDYYYY ⟨y, m, d, 0⟩ := by
      simp only [normalizeDateByFrequency]
      rw [hp]
      simp only [normalizeParsed]
      rw [if_pos hfd]
    conv_lhs => rw [hinner]
  · by_cases hfw : (f == FreqWeekly) = true
    · have hinner : normalizeDateByFrequency tz (formatMMDDYYYY ⟨y, m, d, 0⟩) f
          = formatMMDDYYYY ⟨y', m', d', 0⟩ := by
        simp only [normalizeDateByFrequency]
        rw [hp]
        simp only [normalizeParsed]
        rw [if_neg hfd, if_pos hfw, hmon]
      rw [hinner]
      simp only [normalizeDateByFrequency]
      rw [hp']
      simp only [normalizeParsed]
      rw [if_neg hfd, if_pos hfw, getMonday_fixed y' m' d' 0 hm1' hm2' hd1' hd2' hwd1]
    · have hinner : normalizeDateByFrequency tz (formatMMDDYYYY ⟨y, m, d, 0⟩) f
          = formatMMDDYYYY ⟨y, m, 1, 0⟩ := by
        simp only [normalizeDateByFrequency]
        rw [hp]
        simp only [normalizeParsed]
        rw [if_neg hfd, if_neg hfw]
        show formatMMDDYYYY (mkLocalDate y (m - 1) 1) = _
        rw [hmk1]
      rw [hinner]
      simp only [normalizeDateByFrequency]
      rw [hp1]
      simp only [normalizeParsed]
      rw [if_neg hfd, if_neg hfw]
      show formatMMDDYYYY (mkLocalDate y (m - 1) 1) = _
      rw [hmk1]

/-- Witness for C6 at the concrete date 03-15-2024 and offset 0. -/
theorem C6_normalize_idempotent_witness :
    normalizeDateByFrequency 0 (formatMMDDYYYY ⟨2024, 3, 15, 0⟩) FreqDaily
        = formatMMDDYYYY ⟨2024, 3, 15, 0⟩ ∧
    normalizeDateByFrequency 0
        (normalizeDateByFrequency 0 (formatMMDDYYYY ⟨2024, 3, 15, 0⟩) FreqWeekly) FreqWeekly
        = normalizeDateByFrequency 0 (formatMMDDYYYY ⟨2024, 3, 15, 0⟩) FreqWeekly :=
  ⟨(C6_normalize_idempotent 0 2024 3 15 (by norm_num) (by norm_num) (by norm_num)
      (by norm_num) (by norm_num) (by decide)).1,
   (C6_normalize_idempotent 0 2024 3 15 (by norm_num) (by norm_num) (by norm_num)
      (by norm_num) (by norm_num) (by decide)).2.1 FreqWeekly⟩

/-- C7 as stated is false: 2024-01-01 is a Monday (and 2024-03-01 a first of
month), but through the `YYYY-MM-DD` fallback the string parses as UTC
midnight, so in a runtime west of UTC (offset -300 minutes, US Eastern) the
local-time accessors see the previous calendar day and the boundary test
returns false. -/
theorem C7_counterexample :
    weekdayOfDay (toDay 2024 1 1) = 1 ∧
    shouldCreateEntryForDate (-300) "2024-01-01" FreqWeekly = false ∧
    shouldCreateEntryForDate (-300) "2024-03-01" FreqMonthly = false := by decide

/-- C7 amended: the boundary test is `daily → true`, `weekly ↔ Monday`,
`monthly ↔ day = 1` for every `MM-DD-YYYY` input at every UTC offset; for
`YYYY-MM-DD` inputs (parsed by the fallback as UTC midnight) the same
equivalences hold only when the runtime's UTC offset is nonnegative. -/
theorem C7_boundary (tz y m d : Int) (hy1 : 100 ≤ y) (hy2 : y ≤ 9999)
    (hm1 : 1 ≤ m) (hm2 : m ≤ 12) (hd1 : 1 ≤ d) (hd2 : d ≤ daysInMonth y m) :
    (shouldCreateEntryForDate tz (formatMMDDYYYY ⟨y, m, d, 0⟩) FreqDaily = true ∧
     (shouldCreateEntryForDate tz (formatMMDDYYYY ⟨y, m, d, 0⟩) FreqWeekly = true ↔
       weekdayOfDay (toDay y m d) = 1) ∧
     (shouldCreateEntryForDate tz (formatMMDDYYYY ⟨y, m, d, 0⟩) FreqMonthly = true ↔ d = 1)) ∧
    (∀ tz2 y2 m2 d2 : Int, 0 ≤ tz2 → 1 ≤ y2 → y2 ≤ 9999 → 1 ≤ m2 → m2 ≤ 12 →
      1 ≤ d2 → d2 ≤ daysInMonth y2 m2 →
      (shouldCreateEntryForDate tz2 (isoStr y2 m2 d2) FreqDaily = true ∧
       (shouldCreateEntryForDate tz2 (isoStr y2 m2 d2) FreqWeekly = true ↔
         weekdayOfDay (toDay y2 m2 d2) = 1) ∧
       (shouldCreateEntryForDate tz2 (isoStr y2 m2 d2) FreqMonthly = true ↔ d2 = 1))) := by
  have hp := parse_format tz y m d 0 hy1 hy2 hm1 hm2 hd1 hd2
  constructor
  · refine ⟨?_, ?_, ?_⟩
    · simp only [shouldCreateEntryForDate]
      rw [hp]
      simp only [boundaryParsed]
      rw [if_pos (by decide)]
    · simp only [shouldCreateEntryForDate]
      rw [hp]
      simp only [boundaryParsed]
      rw [if_neg (by decide), if_pos (by decide)]
      exact beq_iff_eq
    · simp only [shouldCreateEntryForDate]
      rw [hp]
      simp only [boundaryParsed]
      rw [if_neg (by decide), if_neg (by decide)]
      exact beq_iff_eq
  · intro tz2 y2 m2 d2 htz hy1' hy2' hm1' hm2' hd1' hd2'
    have hpi := parse_iso tz2 y2 m2 d2 htz hy1' hy2' hm1' hm2' hd1' hd2'
    refine ⟨?_, ?_, ?_⟩
    · simp only [shouldCreateEntryForDate]
      rw [hpi]
      simp only [boundaryParsed]
      rw [if_pos (by decide)]
    · simp only [shouldCreateEntryForDate]
      rw [hpi]
      simp only [boundaryParsed]
      rw [if_neg (by decide), if_pos (by decide)]
      exact beq_iff_eq
    · simp only [shouldCreateEntryForDate]
      rw [hpi]
      simp only [boundaryParsed]
      rw [if_neg (by decide), if_neg (by decide)]
      exact beq_iff_eq

/-- Witness for the amended C7 at 01-01-2024 (a Monday), offsets -300 and 0. -/
theorem C7_boundary_witness :
    shouldCreateEntryForDate (-300) (formatMMDDYYYY ⟨2024, 1, 1, 0⟩) FreqDaily = true ∧
    (shouldCreateEntryForDate (-300) (formatMMDDYYYY ⟨2024, 1, 1, 0⟩) FreqWeekly = true ↔
      weekdayOfDay (toDay 2024 1 1) = 1) ∧
    (shouldCreateEntryForDate 0 (isoStr 2024 1 1) FreqWeekly = true ↔
      weekdayOfDay (toDay 2024 1 1) = 1) := by
  have h := C7_boundary (-300) 2024 1 1 (by norm_num) (by norm_num) (by norm_num)
    (by norm_num) (by norm_num) (by decide)
  exact ⟨h.1.1, h.1.2.1,
    (h.2 0 2024 1 1 (by norm_num) (by norm_num) (by norm_num) (by norm_num)
      (by norm_num) (by norm_num) (by decide)).2.1⟩

/-! ## JavaScript values and `JSON.parse`

`JSVal` models the values `JSON.parse` can return plus plain strings.
Restrictions (documented in the header): numeric literals are modelled as
integers and `\uXXXX` escapes are not modelled; the answers and display
conditions this service exchanges use neither. -/

inductive JSVal where
  | jsNull : JSVal
  | jsBool : Bool → JSVal
  | jsInt : Int → JSVal
  | jsStr : String → JSVal
  | jsArr : List JSVal → JSVal
  | jsObj : List (String × JSVal) → JSVal

/-- Skip JSON whitespace. -/
def skipWs : List Char → List Char
  | c :: cs => if c = ' ' ∨ c = '\t' ∨ c = '\n' ∨ c = '\r' then skipWs cs else c :: cs
  | [] => []

/-- JSON escape characters (`\uXXXX` unmodeled). -/
def escChar (c : Char) : Option Char :=
  if c = '"' then some '"'
  else if c = '\\' then some '\\'
  else if c = '/' then some '/'
  else if c = 'b' then some (Char.ofNat 8)
  else if c = 'f' then some (Char.ofNat 12)
  else if c = 'n' then some '\n'
  else if c = 'r' then some '\r'
  else if c = 't' then some '\t'
  else none

/-- Body of a JSON string literal, after the opening quote. -/
def parseStrBody : List Char → List Char → Option (String × List Char)
  | acc, '"' :: cs => some (String.mk acc.reverse, cs)
  | acc, '\\' :: c :: cs =>
    match escChar c with
    | some e => parseStrBody (e :: acc) cs
    | none => none
  | acc, c :: cs => if c.toNat < 32 then none else parseStrBody (c :: acc) cs
  | _, [] => none

/-- A JSON integer numeral (optional minus, no leading zeros; fractional and
exponent forms are unmodeled and rejected). -/
def parseNum (cs : List Char) : Option (Int × List Char) :=
  let negAndRest : Bool × List Char :=
    match cs with
    | c :: r => if c = '-' then (true, r) else (false, cs)
    | [] => (false, cs)
  let ds := negAndRest.2.takeWhile isDigitCh
  let rest := negAndRest.2.dropWhile isDigitCh
  if ds.isEmpty then none
  else if 1 < ds.length ∧ ds.head? = some '0' then none
  else
    match rest with
    | '.' :: _ => none
    | 'e' :: _ => none
    | 'E' :: _ => none
    | _ => some (if negAndRest.1 then -(digitsVal ds : Int) else (digitsVal ds : Int), rest)

/-- Consume an exact literal. -/
def dropLit : List Char → List Char → Option (List Char)
  | [], cs => some cs
  | l :: ls, c :: cs => if c = l then dropLit ls cs else none
  | _ :: _, [] => none

mutual

def parseVal : Nat → List Char → Option (JSVal × List Char)
  | 0, _ => none
  | fuel + 1, cs =>
    match skipWs cs with
    | [] => none
    | c :: cs' =>
      if c = '"' then
        match parseStrBody [] cs' with
        | some (s, rest) => some (JSVal.jsStr s, rest)
        | none => none
      else if c = '[' then
        match skipWs cs' with
        | ']' :: rest => some (JSVal.jsArr [], rest)
        | other =>
          match parseVal fuel other with
          | some (v, rest) =>
            match parseArrRest fuel rest with
            | some (vs, rest') => some (JSVal.jsArr (v :: vs), rest')
            | none => none
          | none => none
      else if c.toNat = 123 then
        match skipWs cs' with
        | cc :: rest0 =>
          if cc.toNat = 125 then some (JSVal.jsObj [], rest0)
          else
            match parseMember fuel (cc :: rest0) with
            | some (kv, rest) =>
              match parseObjRest fuel rest with
              | some (kvs, rest') => some (JSVal.jsObj (kv :: kvs), rest')
              | none => none
            | none => none
        | [] => none
      else if c = 't' then
        match dropLit ['r', 'u', 'e'] cs' with
        | some rest => some (JSVal.jsBool true, rest)
        | none => none
      else if c = 'f' then
        match dropLit ['a', 'l', 's', 'e'] cs' with
        | some rest => some (JSVal.jsBool false, rest)
        | none => none
      else if c = 'n' then
        match dropLit ['u', 'l', 'l'] cs' with
        | some rest => some (JSVal.jsNull, rest)
        | none => none
      else
        match parseNum (c :: cs') with
        | some (n, rest) => some (JSVal.jsInt n, rest)
        | none => none

def parseArrRest : Nat → List Char → Option (List JSVal × List Char)
  | 0, _ => none
  | fuel + 1, cs =>
    match skipWs cs with
    | ']' :: rest => some ([], rest)
    | ',' :: rest =>
      match parseVal fuel rest with
      | some (v, rest') =>
        match parseArrRest fuel rest' with
        | some (vs, rest'') => some (v :: vs, rest'')
        | none => none
      | none => none
    | _ => none

def parseMember : Nat → List Char → Option ((String × JSVal) × List Char)
  | 0, _ => none
  | fuel + 1, cs =>
    match skipWs cs with
    | '"' :: cs' =>
      match parseStrBody [] cs' with
      | some (k, rest) =>
        match skipWs rest with
        | ':' :: rest' =>
          match parseVal fuel rest' with
          | some (v, rest'') => some ((k, v), rest'')
          | none => none
        | _ => none
      | none => none
    | _ => none

def parseObjRest : Nat → List Char → Option (List (String × JSVal) × List Char)
  | 0, _ => none
  | fuel + 1, cs =>
    match skipWs cs with
    | c :: rest =>
      if c.toNat = 125 then some ([], rest)
      else if c = ',' then
        match parseMember fuel rest with
        | some (kv, rest') =>
          match parseObjRest fuel rest' with
          | some (kvs, rest'') => some (kv :: kvs, rest'')
          | none => none
        | none => none
      else none
    | [] => none

end

/-- `JSON.parse`, returning `none` where the JavaScript call throws. -/
def parseJson (s : String) : Option JSVal :=
  match parseVal (s.data.length + 1) s.data with
  | some (v, rest) =>
    match skipWs rest with
    | [] => some v
    | _ => none
  | none => none

mutual

/-- JS `String(v)`. -/
def jsToString : JSVal → String
  | .jsNull => "null"
  | .jsBool b => if b then "true" else "false"
  | .jsInt n => String.mk (intChars n)
  | .jsStr s => s
  | .jsArr xs => jsArrJoin "," xs
  | .jsObj _ => "[object Object]"

/-- JS `Array.prototype.join(sep)`: elements via `String(..)`, except `null`
and `undefined` render as the empty string. -/
def jsArrJoin : String → List JSVal → String
  | _, [] => ""
  | _, [x] =>
    match x with
    | .jsNull => ""
    | v => jsToString v
  | sep, x :: xs =>
    (match x with
     | .jsNull => ""
     | v => jsToString v) ++ sep ++ jsArrJoin sep xs

end

/-- Does `pat` begin `s`? -/
def listStarts : List Char → List Char → Bool
  | [], _ => true
  | _ :: _, [] => false
  | p :: ps, c :: cs => p == c && listStarts ps cs

/-- Split around the first occurrence of `pat`. -/
def findSplit (pat : List Char) : List Char → Option (List Char × List Char)
  | [] => if pat.isEmpty then some ([], []) else none
  | c :: cs =>
    if listStarts pat (c :: cs) then some ([], (c :: cs).drop pat.length)
    else
      match findSplit pat cs with
      | some (b, a) => some (c :: b, a)
      | none => none

/-- `$`-patterns of JS `String.prototype.replace` replacement strings:
`$$`, `$&` (match), `` $` `` (preceding part), `$'` (following part); with a
string pattern there are no capture groups, so `$<digit>` stays literal. -/
def expandRepl (matched before after : List Char) : List Char → List Char
  | [] => []
  | '$' :: c :: rest =>
    if c = '$' then '$' :: expandRepl matched before after rest
    else if c = '&' then matched ++ expandRepl matched before after rest
    else if c.toNat = 96 then before ++ expandRepl matched before after rest
    else if c = '\'' then after ++ expandRepl matched before after rest
    else '$' :: c :: expandRepl matched before after rest
  | c :: rest => c :: expandRepl matched before after rest

/-- JS `s.replace(pat, repl)` for a string pattern: first occurrence only. -/
def replaceFirstJS (s pat repl : String) : String :=
  match findSplit pat.data s.data with
  | none => s
  | some (b, a) => String.mk (b ++ expandRepl pat.data b a repl.data ++ a)

/-- `answer.startsWith('[') || answer.startsWith('\x7b')`. -/
def startsWithBracket (s : String) : Bool :=
  match s.data with
  | c :: _ => c = '[' || c.toNat = 123
  | [] => false

/-- The `\x7b\x7banswer\x7d\x7d` placeholder. -/
def placeholderStr : String := "\x7b\x7banswer\x7d\x7d"

/-- `generateSummary` (TrackService.ts lines 465-491).  The inner try/catch
turns a `JSON.parse` failure into the literal answer string; nothing in the
remaining body throws on string inputs, so the outer catch is unreachable. -/
def generateSummary (template answer : String) : Option String :=
  if template = "" ∨ answer = "" then none
  else
    let parsed : JSVal :=
      if startsWithBracket answer then
        match parseJson answer with
        | some v => v
        | none => JSVal.jsStr answer
      else JSVal.jsStr answer
    match parsed with
    | JSVal.jsArr xs => some (replaceFirstJS template placeholderStr (jsArrJoin ", " xs))
    | v => some (replaceFirstJS template placeholderStr (jsToString v))

/-! ## Claim C5: summary rendering -/

/-- C5 as stated is false in its failure clause: a malformed JSON answer that
starts with `[` does not yield `null`; the inner catch falls back to the
literal answer string, so the render succeeds. -/
theorem C5_counterexample :
    generateSummary "You answered: \x7b\x7banswer\x7d\x7d" "[oops"
        = some "You answered: [oops" ∧
    generateSummary "You answered: \x7b\x7banswer\x7d\x7d" "[oops" ≠ none :=
  ⟨rfl, by decide⟩

/-- C5 amended: the array example renders joined with ", ", a scalar answer
(one not starting with `[` or `\x7b`) is substituted literally via the JS
replace of the first `\x7b\x7banswer\x7d\x7d` occurrence only, and the result
is `none` exactly when the template or the answer is the empty string — a
parse failure is not an error case but falls back to the literal answer. -/
theorem C5_generateSummary :
    generateSummary "You answered: \x7b\x7banswer\x7d\x7d" "[\"a\",\"b\"]"
        = some "You answered: a, b" ∧
    generateSummary "\x7b\x7banswer\x7d\x7d and \x7b\x7banswer\x7d\x7d" "hi"
        = some "hi and \x7b\x7banswer\x7d\x7d" ∧
    (∀ t a : String, ¬ t = "" → ¬ a = "" → startsWithBracket a = false →
      generateSummary t a = some (replaceFirstJS t placeholderStr a)) ∧
    (∀ t a : String, generateSummary t a = none ↔ (t = "" ∨ a = "")) := by
  refine ⟨rfl, rfl, ?_, ?_⟩
  · intro t a ht ha hb
    unfold generateSummary
    rw [if_neg (by tauto)]
    simp only [hb, Bool.false_eq_true, if_false]
    rfl
  · intro t a
    constructor
    · intro hnone
      by_contra hc
      push_neg at hc
      unfold generateSummary at hnone
      rw [if_neg (by tauto)] at hnone
      by_cases hb : startsWithBracket a = true
      · rw [if_pos hb] at hnone
        rcases hp : parseJson a with _ | v
        · rw [hp] at hnone
          simp at hnone
        · rw [hp] at hnone
          cases v <;> simp at hnone
      · rw [if_neg hb] at hnone
        simp at hnone
    · intro h
      unfold generateSummary
      rw [if_pos h]

/-- Witness for the general clauses of the amended C5. -/
theorem C5_generateSummary_witness :
    generateSummary "Val: \x7b\x7banswer\x7d\x7d" "ok"
        = some (replaceFirstJS "Val: \x7b\x7banswer\x7d\x7d" placeholderStr "ok") ∧
    (generateSummary "Val: \x7b\x7banswer\x7d\x7d" "" = none ↔
      ("Val: \x7b\x7banswer\x7d\x7d" = "" ∨ ("" : String) = "")) :=
  ⟨C5_generateSummary.2.2.1 "Val: \x7b\x7banswer\x7d\x7d" "ok" (by decide) (by decide) (by decide),
   C5_generateSummary.2.2.2 "Val: \x7b\x7banswer\x7d\x7d" ""⟩

/-! ## Rows of the template tables

Timestamps produced by the external clock are modelled as datetime values;
`new Date(timestampString)` on a stored timestamp yields that value. -/

/-- A stored timestamp. -/
abbrev Timestamp := JSDate

/-- A `question` row (fields used by the service; schema from
`schema_v1` via the imported `Question` type). -/
structure Question where
  id : Int
  item_id : Int
  code : String
  text : String
  type : String
  required : Int
  summary_template : Option String
  status : String
  created_date : Timestamp
  updated_date : Timestamp
  parent_question_id : Option Int
  display_condition : Option String
deriving DecidableEq, Repr

/-- A `response_option` row. -/
structure ResponseOption where
  id : Int
  question_id : Int
  code : String
  text : String
  status : String
  created_date : Timestamp
  updated_date : Timestamp
deriving DecidableEq, Repr

/-- Modelled from the spec: the `QuestionCondition` enum of
`@/constants/trackTypes` (not under `src/`); the spec names the keys
`parent_response_exists`, `eq`, `not_eq`, `gt`, `gte`, `lt`, `lte`,
`in`, `not_in`. -/
def condPRE : String := "parent_response_exists"
def condEQ : String := "eq"
def condNEQ : String := "not_eq"
def condGT : String := "gt"
def condGTE : String := "gte"
def condLT : String := "lt"
def condLTE : String := "lte"
def condInSet : String := "in"
def condNotInSet : String := "not_in"

/-- Modelled from the spec: the `QuestionType` enum values
(boolean/mcq/msq) used for option-code resolution. -/
def qtBoolean : String := "boolean"
def qtMCQ : String := "mcq"
def qtMSQ : String := "msq"

/-! ## The visibility evaluator (`isQuestionVisible`, lines 605-729)

The optional memoization cache only stores results of this same pure
evaluation, so the cacheless call modelled here is observationally the
call with `visibilityCache` omitted.  The JS recursion has no explicit
bound (the question graph is assumed acyclic); the model takes fuel, and
callers pass more fuel than the depth of any acyclic parent chain. -/

/-- JS falsy test for a nullable numeric id (`0` is falsy). -/
def idFalsy : Option Int → Bool
  | none => true
  | some v => v == 0

/-- JS falsy test for a nullable string (`""` is falsy). -/
def strFalsy : Option String → Bool
  | none => true
  | some s => s == ""

/-- `answers[pid]` on the answer record. -/
def lookupAnswer (answers : List (Int × String)) (qid : Int) : Option String :=
  (answers.find? (fun kv => kv.1 == qid)).map (fun kv => kv.2)

/-- Property lookup on a parsed JSON value (`undefined` for non-objects;
for duplicate keys `JSON.parse` keeps the last). -/
def objGet (v : JSVal) (k : String) : Option JSVal :=
  match v with
  | .jsObj kvs => (kvs.reverse.find? (fun kv => kv.1 == k)).map (fun kv => kv.2)
  | _ => none

/-- `try JSON.parse(s) catch: s itself`. -/
def parsedOf (s : String) : JSVal :=
  match parseJson s with
  | some v => v
  | none => JSVal.jsStr s

/-- The `parent_response_exists` test: answer present, not null, not the
empty string, and non-empty if an array. -/
def answerPresent : Option JSVal → Bool
  | none => false
  | some .jsNull => false
  | some (.jsStr s) => !(s == "")
  | some (.jsArr xs) => !xs.isEmpty
  | some _ => true

/-- JS strict equality on parsed JSON values: value equality on primitives;
two separately parsed arrays/objects are distinct references, hence never
strictly equal. -/
def jsStrictEq : JSVal → JSVal → Bool
  | .jsNull, .jsNull => true
  | .jsBool a, .jsBool b => a == b
  | .jsInt a, .jsInt b => a == b
  | .jsStr a, .jsStr b => a == b
  | _, _ => false

/-- Is `c` JS whitespace (the forms `Number` trims)? -/
def isWsCh (c : Char) : Bool := c = ' ' || c = '\t' || c = '\n' || c = '\r'

/-- JS `Number(string)` restricted to integer numerals: trimmed empty string
is 0, an optionally signed digit run is its value, anything else `NaN`
(`none`; fractional and hex forms unmodeled). -/
def numFromChars (cs : List Char) : Option Int :=
  let t := ((cs.dropWhile isWsCh).reverse.dropWhile isWsCh).reverse
  if t.isEmpty then some 0
  else
    let signAndDs : Bool × List Char :=
      match t with
      | c :: r => if c = '-' then (true, r) else if c = '+' then (false, r) else (false, t)
      | [] => (false, t)
    if signAndDs.2.isEmpty then none
    else if signAndDs.2.all isDigitCh then
      some (if signAndDs.1 then -(digitsVal signAndDs.2 : Int) else (digitsVal signAndDs.2 : Int))
    else none

/-- JS `Number(v)` on a parsed JSON value (arrays convert via their string
form; objects are `NaN`). -/
def jsToNumber : JSVal → Option Int
  | .jsNull => some 0
  | .jsBool b => some (if b then 1 else 0)
  | .jsInt n => some n
  | .jsStr s => numFromChars s.data
  | .jsArr xs => numFromChars (jsArrJoin "," xs).data
  | .jsObj _ => none

/-- Map stored free-text answers to option codes for boolean/mcq/msq parent
questions (lines 666-689). -/
def mapAnswerToCodes (ptype : Option String) (allOptions : List ResponseOption)
    (pid : Int) (pa0 : JSVal) : JSVal :=
  if (match ptype with
      | some t => t == qtBoolean || t == qtMCQ || t == qtMSQ
      | none => false) && !allOptions.isEmpty then
    let parentOptions := allOptions.filter (fun opt => opt.question_id == pid)
    match pa0 with
    | JSVal.jsArr xs =>
      JSVal.jsArr (xs.map (fun a =>
        match parentOptions.find? (fun opt => jsStrictEq (JSVal.jsStr opt.text) a) with
        | some opt => JSVal.jsStr opt.code
        | none => a))
    | JSVal.jsStr s =>
      (match parentOptions.find? (fun opt => opt.text == s) with
       | some opt => JSVal.jsStr opt.code
       | none => JSVal.jsStr s)
    | other => other
  else pa0

/-- The `eq/not_eq/gt/gte/lt/lte/in/not_in` chain (lines 691-720); when no
recognized key is present `result` keeps its initial `true`. -/
def condChainEval (cond : JSVal) (mapped : JSVal) : Bool :=
  match objGet cond condEQ with
  | some v =>
    (match mapped with
     | JSVal.jsArr xs => xs.any (fun x => jsStrictEq x v)
     | _ => jsStrictEq mapped v)
  | none =>
  match objGet cond condNEQ with
  | some v =>
    (match mapped with
     | JSVal.jsArr xs => !xs.any (fun x => jsStrictEq x v)
     | _ => !jsStrictEq mapped v)
  | none =>
  match objGet cond condGT with
  | some v =>
    (match jsToNumber mapped, jsToNumber v with
     | some a, some b => decide (a > b)
     | _, _ => false)
  | none =>
  match objGet cond condGTE with
  | some v =>
    (match jsToNumber mapped, jsToNumber v with
     | some a, some b => decide (a ≥ b)
     | _, _ => false)
  | none =>
  match objGet cond condLT with
  | some v =>
    (match jsToNumber mapped, jsToNumber v with
     | some a, some b => decide (a < b)
     | _, _ => false)
  | none =>
  match objGet cond condLTE with
  | some v =>
    (match jsToNumber mapped, jsToNumber v with
     | some a, some b => decide (a ≤ b)
     | _, _ => false)
  | none =>
  match objGet cond condInSet with
  | some v =>
    (match v with
     | JSVal.jsArr values =>
       (match mapped with
        | JSVal.jsArr xs => values.any (fun val => xs.any (fun x => jsStrictEq x val))
        | _ => values.any (fun val => jsStrictEq mapped val))
     | _ => false)
  | none =>
  match objGet cond condNotInSet with
  | some v =>
    (match v with
     | JSVal.jsArr values =>
       (match mapped with
        | JSVal.jsArr xs => !values.any (fun val => xs.any (fun x => jsStrictEq x val))
        | _ => !values.any (fun val => jsStrictEq mapped val))
     | _ => false)
  | none => true

/-- `isQuestionVisible` (lines 605-729), cacheless call. -/
def isQuestionVisible : Nat → Question → List (Int × String) → List Question →
    List ResponseOption → Bool
  | 0, _, _, _, _ => true
  | fuel + 1, q, answers, allQuestions, allOptions =>
    if idFalsy q.parent_question_id || strFalsy q.display_condition then true
    else
      let pid := q.parent_question_id.getD 0
      let condStr := q.display_condition.getD ""
      let parentQuestion := allQuestions.find? (fun question => question.id == pid)
      if (match parentQuestion with
          | some p => !(isQuestionVisible fuel p answers allQuestions allOptions)
          | none => false) then false
      else
        match parseJson condStr with
        | none => true
        | some cond =>
          let parsedParentAnswer : Option JSVal := (lookupAnswer answers pid).map parsedOf
          match objGet cond condPRE with
          | some (JSVal.jsBool true) => answerPresent parsedParentAnswer
          | _ =>
            match parsedParentAnswer with
            | none => false
            | some JSVal.jsNull => false
            | some pa0 =>
              condChainEval cond
                (mapAnswerToCodes (parentQuestion.map (fun p => p.type)) allOptions pid pa0)

/-! ## Claims C2, C8, C9: visibility -/

/-- C2 as stated is false: question 2 (parent 1, `parent_response_exists`
condition, no recorded answer) is hidden, but its child question 3, which has
`parent_question_id = 2` and a null `display_condition`, is returned visible —
the early guard `!q.parent_question_id || !q.display_condition` short-circuits
to `true` before the cascading parent check runs. -/
theorem C2_counterexample :
    isQuestionVisible 4
        ⟨2, 1, "c2", "t2", "text", 0, none, "active", ⟨2024, 1, 1, 0⟩, ⟨2024, 1, 1, 0⟩,
          some 1, some "\x7b\"parent_response_exists\": true\x7d"⟩
        []
        [⟨1, 1, "c1", "t1", "text", 0, none, "active", ⟨2024, 1, 1, 0⟩, ⟨2024, 1, 1, 0⟩,
            none, none⟩,
         ⟨2, 1, "c2", "t2", "text", 0, none, "active", ⟨2024, 1, 1, 0⟩, ⟨2024, 1, 1, 0⟩,
            some 1, some "\x7b\"parent_response_exists\": true\x7d"⟩,
         ⟨3, 1, "c3", "t3", "text", 0, none, "active", ⟨2024, 1, 1, 0⟩, ⟨2024, 1, 1, 0⟩,
            some 2, none⟩]
        [] = false ∧
    isQuestionVisible 4
        ⟨3, 1, "c3", "t3", "text", 0, none, "active", ⟨2024, 1, 1, 0⟩, ⟨2024, 1, 1, 0⟩,
          some 2, none⟩
        []
        [⟨1, 1, "c1", "t1", "text", 0, none, "active", ⟨2024, 1, 1, 0⟩, ⟨2024, 1, 1, 0⟩,
            none, none⟩,
         ⟨2, 1, "c2", "t2", "text", 0, none, "active", ⟨2024, 1, 1, 0⟩, ⟨2024, 1, 1, 0⟩,
            some 1, some "\x7b\"parent_response_exists\": true\x7d"⟩,
         ⟨3, 1, "c3", "t3", "text", 0, none, "active", ⟨2024, 1, 1, 0⟩, ⟨2024, 1, 1, 0⟩,
            some 2, none⟩]
        [] = true := by decide

/-- C2 amended: hiding cascades only through questions carrying both a
non-null, non-zero `parent_question_id` and a non-null, non-empty
`display_condition`: for such a question whose parent (found in the question
list) evaluates hidden, `isQuestionVisible` returns false regardless of the
condition's content; a question with a parent but a null or empty condition
is unconditionally visible, so hiding does not cascade to it or through it. -/
theorem C2_cascade (fuel : Nat) (q p : Question) (answers : List (Int × String))
    (qs : List Question) (opts : List ResponseOption) (pid : Int) (c : String)
    (hpid : q.parent_question_id = some pid) (hpid0 : ¬ pid = 0)
    (hcond : q.display_condition = some c) (hc0 : ¬ c = "")
    (hfind : qs.find? (fun question => question.id == pid) = some p)
    (hph : isQuestionVisible fuel p answers qs opts = false) :
    isQuestionVisible (fuel + 1) q answers qs opts = false ∧
    (∀ q' : Question, q'.parent_question_id = none ∨ q'.display_condition = none →
      isQuestionVisible (fuel + 1) q' answers qs opts = true) := by
  constructor
  · simp only [isQuestionVisible, hpid, hcond, Option.getD_some, idFalsy, strFalsy, hfind, hph]
    simp [hpid0, hc0]
  · intro q' hq'
    rcases hq' with h | h <;>
      simp [isQuestionVisible, h, idFalsy, strFalsy]

/-- Witness for the amended C2: the hidden question 2 hides its child 5,
which carries its own (otherwise satisfied) condition. -/
theorem C2_cascade_witness :
    isQuestionVisible 4
        ⟨5, 1, "c5", "t5", "text", 0, none, "active", ⟨2024, 1, 1, 0⟩, ⟨2024, 1, 1, 0⟩,
          some 2, some "\x7b\"parent_response_exists\": true\x7d"⟩
        [(2, "yes")]
        [⟨1, 1, "c1", "t1", "text", 0, none, "active", ⟨2024, 1, 1, 0⟩, ⟨2024, 1, 1, 0⟩,
            none, none⟩,
         ⟨2, 1, "c2", "t2", "text", 0, none, "active", ⟨2024, 1, 1, 0⟩, ⟨2024, 1, 1, 0⟩,
            some 1, some "\x7b\"parent_response_exists\": true\x7d"⟩]
        [] = false ∧
    isQuestionVisible 4
        ⟨6, 1, "c6", "t6", "text", 0, none, "active", ⟨2024, 1, 1, 0⟩, ⟨2024, 1, 1, 0⟩,
          some 2, none⟩
        [(2, "yes")]
        [⟨1, 1, "c1", "t1", "text", 0, none, "active", ⟨2024, 1, 1, 0⟩, ⟨2024, 1, 1, 0⟩,
            none, none⟩,
         ⟨2, 1, "c2", "t2", "text", 0, none, "active", ⟨2024, 1, 1, 0⟩, ⟨2024, 1, 1, 0⟩,
            some 1, some "\x7b\"parent_response_exists\": true\x7d"⟩]
        [] = true :=
  ⟨(C2_cascade 3
      ⟨5, 1, "c5", "t5", "text", 0, none, "active", ⟨2024, 1, 1, 0⟩, ⟨2024, 1, 1, 0⟩,
        some 2, some "\x7b\"parent_response_exists\": true\x7d"⟩
      ⟨2, 1, "c2", "t2", "text", 0, none, "active", ⟨2024, 1, 1, 0⟩, ⟨2024, 1, 1, 0⟩,
        some 1, some "\x7b\"parent_response_exists\": true\x7d"⟩
      [(2, "yes")]
      [⟨1, 1, "c1", "t1", "text", 0, none, "active", ⟨2024, 1, 1, 0⟩, ⟨2024, 1, 1, 0⟩,
          none, none⟩,
       ⟨2, 1, "c2", "t2", "text", 0, none, "active", ⟨2024, 1, 1, 0⟩, ⟨2024, 1, 1, 0⟩,
          some 1, some "\x7b\"parent_response_exists\": true\x7d"⟩]
      [] 2 "\x7b\"parent_response_exists\": true\x7d"
      rfl (by decide) rfl (by decide) (by decide) (by decide)).1,
   (C2_cascade 3
      ⟨5, 1, "c5", "t5", "text", 0, none, "active", ⟨2024, 1, 1, 0⟩, ⟨2024, 1, 1, 0⟩,
        some 2, some "\x7b\"parent_response_exists\": true\x7d"⟩
      ⟨2, 1, "c2", "t2", "text", 0, none, "active", ⟨2024, 1, 1, 0⟩, ⟨2024, 1, 1, 0⟩,
        some 1, some "\x7b\"parent_response_exists\": true\x7d"⟩
      [(2, "yes")]
      [⟨1, 1, "c1", "t1", "text", 0, none, "active", ⟨2024, 1, 1, 0⟩, ⟨2024, 1, 1, 0⟩,
          none, none⟩,
       ⟨2, 1, "c2", "t2", "text", 0, none, "active", ⟨2024, 1, 1, 0⟩, ⟨2024, 1, 1, 0⟩,
          some 1, some "\x7b\"parent_response_exists\": true\x7d"⟩]
      [] 2 "\x7b\"parent_response_exists\": true\x7d"
      rfl (by decide) rfl (by decide) (by decide) (by decide)).2
    ⟨6, 1, "c6", "t6", "text", 0, none, "active", ⟨2024, 1, 1, 0⟩, ⟨2024, 1, 1, 0⟩,
      some 2, none⟩
    (Or.inr rfl)⟩

/-- The `parent_response_exists` test characterized. -/
theorem answerPresent_iff (v : JSVal) :
    answerPresent (some v) = true ↔
      (¬ v = JSVal.jsNull ∧ ¬ v = JSVal.jsStr "" ∧ ∀ xs, v = JSVal.jsArr xs → ¬ xs = []) := by
  cases v <;> simp [answerPresent]

/-- C8: for a question whose display condition parses to
`\x7b"parent_response_exists": true\x7d` and whose parent question is found and
visible, `isQuestionVisible` returns true iff the parent's parsed answer
exists, is not null, is not the empty string, and is a non-empty array if an
array; in particular the answer string "[]" yields hidden and "yes" yields
visible. -/
theorem C8_parent_response_exists (fuel : Nat) (q p : Question)
    (answers : List (Int × String)) (qs : List Question) (opts : List ResponseOption)
    (pid : Int) (c : String)
    (hpid : q.parent_question_id = some pid) (hpid0 : ¬ pid = 0)
    (hcond : q.display_condition = some c) (hc0 : ¬ c = "")
    (hparse : parseJson c = some (JSVal.jsObj [("parent_response_exists", JSVal.jsBool true)]))
    (hfind : qs.find? (fun question => question.id == pid) = some p)
    (hpvis : isQuestionVisible fuel p answers qs opts = true) :
    (isQuestionVisible (fuel + 1) q answers qs opts = true ↔
      (∃ s, lookupAnswer answers pid = some s ∧ ¬ parsedOf s = JSVal.jsNull ∧
        ¬ parsedOf s = JSVal.jsStr "" ∧ ∀ xs, parsedOf s = JSVal.jsArr xs → ¬ xs = [])) ∧
    (lookupAnswer answers pid = some "[]" →
      isQuestionVisible (fuel + 1) q answers qs opts = false) ∧
    (lookupAnswer answers pid = some "yes" →
      isQuestionVisible (fuel + 1) q answers qs opts = true) := by
  have hog : objGet (JSVal.jsObj [("parent_response_exists", JSVal.jsBool true)]) condPRE
      = some (JSVal.jsBool true) := rfl
  have hbody : isQuestionVisible (fuel + 1) q answers qs opts
      = answerPresent ((lookupAnswer answers pid).map parsedOf) := by
    simp only [isQuestionVisible, hpid, hcond, Option.getD_some, idFalsy, strFalsy,
      hfind, hpvis, hparse, hog]
    simp [hpid0, hc0]
  refine ⟨?_, ?_, ?_⟩
  · rw [hbody]
    cases hl : lookupAnswer answers pid with
    | none => simp [answerPresent]
    | some s => simp [answerPresent_iff (parsedOf s)]
  · intro hl
    rw [hbody, hl]
    rfl
  · intro hl
    rw [hbody, hl]
    rfl

/-- Witness for C8: parent answer "yes" makes the dependent question visible. -/
theorem C8_parent_response_exists_witness :
    isQuestionVisible 3
        ⟨2, 1, "c2", "t2", "text", 0, none, "active", ⟨2024, 1, 1, 0⟩, ⟨2024, 1, 1, 0⟩,
          some 1, some "\x7b\"parent_response_exists\": true\x7d"⟩
        [(1, "yes")]
        [⟨1, 1, "c1", "t1", "text", 0, none, "active", ⟨2024, 1, 1, 0⟩, ⟨2024, 1, 1, 0⟩,
            none, none⟩]
        [] = true :=
  (C8_parent_response_exists 2
      ⟨2, 1, "c2", "t2", "text", 0, none, "active", ⟨2024, 1, 1, 0⟩, ⟨2024, 1, 1, 0⟩,
        some 1, some "\x7b\"parent_response_exists\": true\x7d"⟩
      ⟨1, 1, "c1", "t1", "text", 0, none, "active", ⟨2024, 1, 1, 0⟩, ⟨2024, 1, 1, 0⟩,
        none, none⟩
      [(1, "yes")]
      [⟨1, 1, "c1", "t1", "text", 0, none, "active", ⟨2024, 1, 1, 0⟩, ⟨2024, 1, 1, 0⟩,
          none, none⟩]
      [] 1 "\x7b\"parent_response_exists\": true\x7d"
      rfl (by decide) rfl (by decide) rfl (by decide) (by decide)).2.2 rfl

/-- C9: a question with a parent and a display condition that is not valid
JSON does not propagate an error: when its parent is found and visible, the
`catch` path returns true (fail-open). -/
theorem C9_malformed_condition (fuel : Nat) (q p : Question)
    (answers : List (Int × String)) (qs : List Question) (opts : List ResponseOption)
    (pid : Int) (c : String)
    (hpid : q.parent_question_id = some pid) (hpid0 : ¬ pid = 0)
    (hcond : q.display_condition = some c) (hc0 : ¬ c = "")
    (hparse : parseJson c = none)
    (hfind : qs.find? (fun question => question.id == pid) = some p)
    (hpvis : isQuestionVisible fuel p answers qs opts = true) :
    isQuestionVisible (fuel + 1) q answers qs opts = true := by
  simp only [isQuestionVisible, hpid, hcond, Option.getD_some, idFalsy, strFalsy,
    hfind, hpvis, hparse]
  simp [hpid0, hc0]

/-- Witness for C9 with the malformed condition "not json". -/
theorem C9_malformed_condition_witness :
    isQuestionVisible 3
        ⟨2, 1, "c2", "t2", "text", 0, none, "active", ⟨2024, 1, 1, 0⟩, ⟨2024, 1, 1, 0⟩,
          some 1, some "not json"⟩
        []
        [⟨1, 1, "c1", "t1", "text", 0, none, "active", ⟨2024, 1, 1, 0⟩, ⟨2024, 1, 1, 0⟩,
            none, none⟩]
        [] = true :=
  C9_malformed_condition 2
    ⟨2, 1, "c2", "t2", "text", 0, none, "active", ⟨2024, 1, 1, 0⟩, ⟨2024, 1, 1, 0⟩,
      some 1, some "not json"⟩
    ⟨1, 1, "c1", "t1", "text", 0, none, "active", ⟨2024, 1, 1, 0⟩, ⟨2024, 1, 1, 0⟩,
      none, none⟩
    []
    [⟨1, 1, "c1", "t1", "text", 0, none, "active", ⟨2024, 1, 1, 0⟩, ⟨2024, 1, 1, 0⟩,
        none, none⟩]
    [] 1 "not json"
    rfl (by decide) rfl (by decide) rfl (by decide) (by decide)

/-! ## The database model

Tables are lists of rows in insertion order.  `getFirstByFields` is the
first match, `insert` appends a row with a fresh id drawn from a per-table
counter, `updateByFields` maps over rows, `deleteByFields` filters.
`uuidv4` and the inline code generators are modelled as draws from the
`codeSeed` counter of fresh codes. -/

/-- A `patient` row (fields used by the service). -/
structure Patient where
  id : Int
  user_id : String
deriving DecidableEq, Repr

/-- A `track_category` row. -/
structure TrackCategory where
  id : Int
  name : String
  status : String
deriving DecidableEq, Repr

/-- A `track_item` row. -/
structure TrackItem where
  id : Int
  category_id : Int
  code : String
  name : String
  frequency : String
  status : String
  created_date : Timestamp
  updated_date : Timestamp
deriving DecidableEq, Repr

/-- A `track_item_entry` row. -/
structure TrackItemEntry where
  id : Int
  user_id : String
  patient_id : Int
  track_item_id : Int
  date : String
  selected : Int
  created_date : Timestamp
  updated_date : Timestamp
deriving DecidableEq, Repr

/-- A `track_response` row. -/
structure TrackResponse where
  id : Int
  user_id : String
  patient_id : Int
  question_id : Int
  track_item_entry_id : Int
  answer : String
  created_date : Timestamp
  updated_date : Timestamp
deriving DecidableEq, Repr

/-- The database state. -/
structure DB where
  patients : List Patient
  trackCategories : List TrackCategory
  trackItems : List TrackItem
  questions : List Question
  responseOptions : List ResponseOption
  trackItemEntries : List TrackItemEntry
  trackResponses : List TrackResponse
  nextItemId : Int
  nextQuestionId : Int
  nextOptionId : Int
  nextEntryId : Int
  nextResponseId : Int
  codeSeed : Nat
deriving DecidableEq, Repr

/-- The `uuidv4()` / inline code generators, modelled as a fresh-code stream. -/
def genCode (seed : Nat) : String := "uuid-" ++ String.mk (natChars seed)

/-- Trim ASCII whitespace from both ends (JS `String.prototype.trim` on the
inputs this service handles). -/
def trimStr (s : String) : String :=
  String.mk (((s.data.dropWhile isWsCh).reverse.dropWhile isWsCh).reverse)

/-- `JSON.stringify` of a string value. -/
def jsonEscape : List Char → List Char
  | [] => []
  | c :: cs =>
    if c = '"' then '\\' :: '"' :: jsonEscape cs
    else if c = '\\' then '\\' :: '\\' :: jsonEscape cs
    else if c = '\n' then '\\' :: 'n' :: jsonEscape cs
    else if c = '\t' then '\\' :: 't' :: jsonEscape cs
    else if c = '\r' then '\\' :: 'r' :: jsonEscape cs
    else c :: jsonEscape cs

def jsonStringify (s : String) : String :=
  String.mk ('"' :: (jsonEscape s.data ++ ['"']))

/-- `SELECT DISTINCT`, keeping the first occurrence; fuel-driven so it is
kernel-reducible. -/
def sqlDistinctF [BEq α] : Nat → List α → List α
  | 0, _ => []
  | _, [] => []
  | fuel + 1, a :: as => a :: sqlDistinctF fuel (as.filter (fun b => !(b == a)))

def sqlDistinct [BEq α] (l : List α) : List α := sqlDistinctF l.length l

/-! ## `ensureSubscribedEntries` (lines 75-128) -/

/-- The `getFirstByFields` predicate of the entry upsert. -/
def entryMatch (patientId itemId : Int) (nd : String) (e : TrackItemEntry) : Bool :=
  e.track_item_id == itemId && e.patient_id == patientId && e.date == nd

/-- The subscribed-items query (lines 77-89): distinct `(id, frequency)` of
active items in active categories having an entry of this patient with
`selected = 1`. -/
def subscribedItemsQuery (patientId : Int) (db : DB) : List (Int × String) :=
  sqlDistinct ((db.trackItems.filter (fun ti => ti.status == "active")).flatMap (fun ti =>
    (db.trackCategories.filter (fun tc =>
        tc.id == ti.category_id && tc.status == "active")).flatMap (fun _tc =>
      (db.trackItemEntries.filter (fun tie =>
          tie.track_item_id == ti.id && tie.patient_id == patientId &&
          tie.selected == 1)).map (fun _tie => (ti.id, ti.frequency)))))

/-- One iteration of the per-item loop (lines 97-127): skip off-boundary
dates, insert a selected entry for the bucket if missing, reactivate if
present but deselected. -/
def ensureStep (tz patientId : Int) (now : Timestamp) (userId : String) (date : String)
    (acc : DB) (pr : Int × String) : DB :=
  if !(shouldCreateEntryForDate tz date pr.2) then acc
  else
    match acc.trackItemEntries.find?
        (entryMatch patientId pr.1 (normalizeDateByFrequency tz date pr.2)) with
    | none =>
      { acc with
        trackItemEntries := acc.trackItemEntries ++
          [⟨acc.nextEntryId, userId, patientId, pr.1, normalizeDateByFrequency tz date pr.2,
            1, now, now⟩]
        nextEntryId := acc.nextEntryId + 1 }
    | some existing =>
      if !(existing.selected == 1) then
        { acc with trackItemEntries := acc.trackItemEntries.map (fun e =>
            if e.id == existing.id then { e with selected := 1, updated_date := now } else e) }
      else acc

/-- `ensureSubscribedEntries` (lines 75-128): no-op when the subscription set
is empty or the patient row is missing. -/
def ensureSubscribedEntries (tz : Int) (moduleNow : Timestamp) (patientId : Int)
    (date : String) (db : DB) : DB :=
  let subscribedItems := subscribedItemsQuery patientId db
  if subscribedItems.isEmpty then db
  else
    match db.patients.find? (fun p => p.id == patientId) with
    | none => db
    | some patient =>
      subscribedItems.foldl (ensureStep tz patientId moduleNow patient.user_id date) db

/-! ## Entry/response/option writers (lines 333-463) -/

/-- `addTrackItemOnDate` (lines 401-446): reactivate this bucket's entry or
insert a selected one; `item?.frequency || DAILY` treats a missing item or
empty frequency as daily. -/
def addTrackItemOnDate (tz : Int) (moduleNow : Timestamp) (itemId : Int) (userId : String)
    (patientId : Int) (date : String) (db : DB) : DB :=
  let frequency :=
    match db.trackItems.find? (fun i => i.id == itemId) with
    | some i => if i.frequency == "" then FreqDaily else i.frequency
    | none => FreqDaily
  let normalizedDate := normalizeDateByFrequency tz date frequency
  match db.trackItemEntries.find? (entryMatch patientId itemId normalizedDate) with
  | some existing =>
    { db with trackItemEntries := db.trackItemEntries.map (fun e =>
        if e.id == existing.id then { e with selected := 1, updated_date := moduleNow } else e) }
  | none =>
    { db with
      trackItemEntries := db.trackItemEntries ++
        [⟨db.nextEntryId, userId, patientId, itemId, normalizedDate, 1, moduleNow, moduleNow⟩],
      nextEntryId := db.nextEntryId + 1 }

/-- `removeTrackItemFromDate` (lines 449-463): deselect every entry of this
(item, patient) pair, across all dates. -/
def removeTrackItemFromDate (moduleNow : Timestamp) (itemId : Int) (patientId : Int)
    (db : DB) : DB :=
  { db with trackItemEntries := db.trackItemEntries.map (fun e =>
      if e.patient_id == patientId && e.track_item_id == itemId then
        { e with selected := 0, updated_date := moduleNow } else e) }

/-- `saveResponse` (lines 333-378): per-(entry, question, user, patient)
upsert, stamping `getCurrentTimestamp()` at call time. -/
def saveResponse (callNow : Timestamp) (entryId questionId : Int) (answer : String)
    (userId : String) (patientId : Int) (db : DB) : DB :=
  let rmatch := fun (r : TrackResponse) =>
    r.track_item_entry_id == entryId && r.question_id == questionId &&
      r.user_id == userId && r.patient_id == patientId
  match db.trackResponses.find? rmatch with
  | some _ =>
    { db with trackResponses := db.trackResponses.map (fun r =>
        if rmatch r then
          { r with answer := jsonStringify answer, updated_date := callNow } else r) }
  | none =>
    { db with
      trackResponses := db.trackResponses ++
        [⟨db.nextResponseId, userId, patientId, questionId, entryId,
          jsonStringify answer, callNow, callNow⟩],
      nextResponseId := db.nextResponseId + 1 }

/-- `addOptionToQuestion` (lines 380-398): insert an option with
call-time timestamps, returning the generated id; the source sets neither
code nor status on this row (modelled as empty strings). -/
def addOptionToQuestion (callNow : Timestamp) (questionId : Int) (label : String)
    (db : DB) : DB × Int :=
  ({ db with
      responseOptions := db.responseOptions ++
        [⟨db.nextOptionId, questionId, "", label, "", callNow, callNow⟩],
      nextOptionId := db.nextOptionId + 1 },
   db.nextOptionId)

/-! ## Custom-goal CRUD (lines 735-952) -/

/-- A question of `CustomGoalParams`. -/
structure CustomGoalQuestion where
  text : String
  type : String
  required : Bool
  options : Option (List String)
deriving DecidableEq, Repr

/-- Insert one response option with a fresh id and code (the option-insert
loops of `addCustomGoal` and `editCustomGoal`). -/
def optInsertStep (moduleNow : Timestamp) (qid : Int) (a : DB) (opt : String) : DB :=
  { a with
    responseOptions := a.responseOptions ++
      [⟨a.nextOptionId, qid, genCode a.codeSeed, trimStr opt, "active", moduleNow, moduleNow⟩]
    nextOptionId := a.nextOptionId + 1
    codeSeed := a.codeSeed + 1 }

/-- One iteration of the question-creation loop of `addCustomGoal`
(lines 766-827). -/
def addCustomGoalStep (moduleNow : Timestamp) (itemId : Int) (acc : DB)
    (question : CustomGoalQuestion) : DB :=
  let questionId := acc.nextQuestionId
  let acc1 := { acc with
    questions := acc.questions ++
      [⟨questionId, itemId, genCode acc.codeSeed, question.text, question.type,
        (if question.required then 1 else 0), none, "active", moduleNow, moduleNow,
        none, none⟩],
    nextQuestionId := questionId + 1,
    codeSeed := acc.codeSeed + 1 }
  if question.type == qtBoolean || question.type == "boolean" then
    { acc1 with
      responseOptions := acc1.responseOptions ++
        [⟨acc1.nextOptionId, questionId, genCode acc1.codeSeed, "Yes", "active",
            moduleNow, moduleNow⟩,
         ⟨acc1.nextOptionId + 1, questionId, genCode (acc1.codeSeed + 1), "No", "active",
            moduleNow, moduleNow⟩],
      nextOptionId := acc1.nextOptionId + 2,
      codeSeed := acc1.codeSeed + 2 }
  else if question.type == qtMCQ || question.type == qtMSQ ||
      question.type == "mcq" || question.type == "msq" then
    match question.options with
    | some opts =>
      let cleanOptions := opts.filter (fun o => !(trimStr o == ""))
      if cleanOptions.isEmpty then acc1
      else cleanOptions.foldl (optInsertStep moduleNow questionId) acc1
    | none => acc1
  else acc1

/-- `addCustomGoal` (lines 735-830): `none` models the thrown error when the
"Custom" category is missing; otherwise returns the new item id. -/
def addCustomGoal (moduleNow : Timestamp) (name : String) (frequency : String)
    (questions : List CustomGoalQuestion) (db : DB) : Option (DB × Int) :=
  match db.trackCategories.find? (fun c => c.name == "Custom") with
  | none => none
  | some category =>
    let itemId := db.nextItemId
    let db1 := { db with
      trackItems := db.trackItems ++
        [⟨itemId, category.id, genCode db.codeSeed, name, frequency, "active",
            moduleNow, moduleNow⟩],
      nextItemId := itemId + 1,
      codeSeed := db.codeSeed + 1 }
    some (questions.foldl (addCustomGoalStep moduleNow itemId) db1, itemId)

/-- A question update of `editCustomGoal`. -/
structure QuestionUpdate where
  id : Option Int
  text : String
  type : String
  required : Bool
  options : Option (List String)
deriving DecidableEq, Repr

/-- One iteration of the question loop of `editCustomGoal` (lines 859-923):
an update by id replaces the option set wholesale (hard delete plus inserts)
when options are supplied; otherwise a fresh question (and options) are
inserted. -/
def editStep (moduleNow : Timestamp) (trackItemId : Int) (acc : DB)
    (u : QuestionUpdate) : DB :=
  if !(idFalsy u.id) then
    let qid := u.id.getD 0
    let acc1 := { acc with questions := acc.questions.map (fun qq =>
        if qq.id == qid then
          { qq with
            text := u.text
            type := u.type
            required := (if u.required then 1 else 0)
            updated_date := moduleNow }
        else qq) }
    match u.options with
    | some opts =>
      let acc2 := { acc1 with responseOptions :=
          acc1.responseOptions.filter (fun o => !(o.question_id == qid)) }
      opts.foldl (optInsertStep moduleNow qid) acc2
    | none => acc1
  else
    let questionId := acc.nextQuestionId
    let acc1 := { acc with
      questions := acc.questions ++
        [⟨questionId, trackItemId, genCode acc.codeSeed, u.text, u.type,
          (if u.required then 1 else 0), none, "active", moduleNow, moduleNow,
          none, none⟩],
      nextQuestionId := questionId + 1,
      codeSeed := acc.codeSeed + 1 }
    match u.options with
    | some opts => opts.foldl (optInsertStep moduleNow questionId) acc1
    | none => acc1

/-- The name-update stage of `editCustomGoal` (lines 847-855): skipped for a
falsy (absent or empty) name. -/
def editNameStage (moduleNow : Timestamp) (trackItemId : Int) (nameUpd : Option String)
    (db : DB) : DB :=
  match nameUpd with
  | some nm =>
    if nm == "" then db
    else
      { db with trackItems := db.trackItems.map (fun i =>
          if i.id == trackItemId then { i with name := nm, updated_date := moduleNow }
          else i) }
  | none => db

/-- `editCustomGoal` (lines 832-927): name update is skipped for a falsy
name; question updates run only for a non-empty list. -/
def editCustomGoal (moduleNow : Timestamp) (trackItemId : Int) (nameUpd : Option String)
    (questionsUpd : Option (List QuestionUpdate)) (db : DB) : DB :=
  match questionsUpd with
  | some qsU =>
    if qsU.isEmpty then editNameStage moduleNow trackItemId nameUpd db
    else qsU.foldl (editStep moduleNow trackItemId)
      (editNameStage moduleNow trackItemId nameUpd db)
  | none => editNameStage moduleNow trackItemId nameUpd db

/-- `removeCustomGoal` (lines 929-952): soft-deactivate the item and deselect
the patient's entries for it; no row is removed. -/
def removeCustomGoal (moduleNow : Timestamp) (trackItemId patientId : Int) (db : DB) : DB :=
  let db1 := { db with trackItems := db.trackItems.map (fun (i : TrackItem) =>
      if i.id == trackItemId then { i with status := "inactive", updated_date := moduleNow }
      else i) }
  { db1 with trackItemEntries := db1.trackItemEntries.map (fun (e : TrackItemEntry) =>
      if e.track_item_id == trackItemId && e.patient_id == patientId then
        { e with selected := 0, updated_date := moduleNow } else e) }

/-! ## List lemmas for the upsert reasoning -/

theorem find?_append_some {α : Type} (p : α → Bool) (l l' : List α) (e : α)
    (h : l.find? p = some e) : (l ++ l').find? p = some e := by
  induction l with
  | nil => simp [List.find?] at h
  | cons a as ih =>
    by_cases hpa : p a
    · rw [List.find?_cons_of_pos _ hpa] at h
      rw [List.cons_append, List.find?_cons_of_pos _ hpa]
      exact h
    · rw [List.find?_cons_of_neg _ hpa] at h
      rw [List.cons_append, List.find?_cons_of_neg _ hpa]
      exact ih h

theorem find?_append_none {α : Type} (p : α → Bool) (l l' : List α)
    (h : l.find? p = none) : (l ++ l').find? p = l'.find? p := by
  induction l with
  | nil => simp
  | cons a as ih =>
    by_cases hpa : p a
    · rw [List.find?_cons_of_pos _ hpa] at h
      exact absurd h (by simp)
    · rw [List.find?_cons_of_neg _ hpa] at h
      rw [List.cons_append, List.find?_cons_of_neg _ hpa]
      exact ih h

theorem find?_map_invariant {α : Type} (p : α → Bool) (u : α → α) (l : List α)
    (h : ∀ e, p (u e) = p e) : (l.map u).find? p = (l.find? p).map u := by
  induction l with
  | nil => simp
  | cons a as ih =>
    by_cases hpa : p a
    · rw [List.map_cons, List.find?_cons_of_pos _ (by rw [h a]; exact hpa),
        List.find?_cons_of_pos _ hpa]
      rfl
    · rw [List.map_cons, List.find?_cons_of_neg _ (by rw [h a]; exact hpa),
        List.find?_cons_of_neg _ hpa]
      exact ih

theorem pairwise_ne_eq_of_eq {α : Type} (key : α → Int) (l : List α)
    (h : l.Pairwise (fun a b => ¬ key a = key b)) :
    ∀ a ∈ l, ∀ b ∈ l, key a = key b → a = b := by
  induction l with
  | nil => simp
  | cons x xs ih =>
    rw [List.pairwise_cons] at h
    intro a ha b hb hk
    rcases List.mem_cons.mp ha with rfl | ha' <;> rcases List.mem_cons.mp hb with rfl | hb'
    · rfl
    · exact absurd hk (h.1 b hb')
    · exact absurd hk.symm (h.1 a ha')
    · exact ih h.2 a ha' b hb' hk

theorem mem_sqlDistinctF_iff {α : Type} [BEq α] [LawfulBEq α] (fuel : Nat) :
    ∀ (l : List α), l.length ≤ fuel → ∀ b, b ∈ sqlDistinctF fuel l ↔ b ∈ l := by
  induction fuel with
  | zero =>
    intro l h b
    match l, h with
    | [], _ => simp [sqlDistinctF]
  | succ f ih =>
    intro l h b
    cases l with
    | nil => simp [sqlDistinctF]
    | cons a as =>
      simp only [sqlDistinctF, List.mem_cons]
      rw [ih (as.filter (fun x => !(x == a)))
        (le_trans (List.length_filter_le _ _) (by simp at h; omega)) b]
      simp only [List.mem_filter, Bool.not_eq_eq_eq_not, Bool.not_true, beq_eq_false_iff_ne]
      constructor
      · rintro (rfl | ⟨hm, _⟩)
        · exact Or.inl rfl
        · exact Or.inr hm
      · rintro (rfl | hm)
        · exact Or.inl rfl
        · by_cases hba : b = a
          · exact Or.inl hba
          · exact Or.inr ⟨hm, hba⟩

theorem mem_sqlDistinct_iff {α : Type} [BEq α] [LawfulBEq α] (l : List α) (b : α) :
    b ∈ sqlDistinct l ↔ b ∈ l :=
  mem_sqlDistinctF_iff l.length l (le_refl _) b

/-! ## Lemmas for claim C1 -/

/-- The per-(item, frequency) post-condition `ensureSubscribedEntries`
establishes: on a boundary date, the bucket's first-found entry is selected. -/
def goodPair (tz patientId : Int) (date : String) (db : DB) (pr : Int × String) : Prop :=
  shouldCreateEntryForDate tz date pr.2 = true →
    ∃ e, db.trackItemEntries.find?
        (entryMatch patientId pr.1 (normalizeDateByFrequency tz date pr.2)) = some e ∧
      e.selected = 1

/-- The patient has a selected entry for item `x`. -/
def qualifies (patientId x : Int) (db : DB) : Prop :=
  ∃ e ∈ db.trackItemEntries, e.track_item_id = x ∧ e.patient_id = patientId ∧ e.selected = 1

/-- Well-formedness of the entry table: distinct primary keys, bounded by the
id counter. -/
def entryIdsOk (db : DB) : Prop :=
  db.trackItemEntries.Pairwise (fun a b => ¬ a.id = b.id) ∧
    ∀ e ∈ db.trackItemEntries, e.id < db.nextEntryId

theorem mem_subscribed_iff (patientId : Int) (db : DB) (pr : Int × String) :
    pr ∈ subscribedItemsQuery patientId db ↔
      ∃ ti ∈ db.trackItems, ti.status = "active" ∧ pr = (ti.id, ti.frequency) ∧
        (∃ tc ∈ db.trackCategories, tc.id = ti.category_id ∧ tc.status = "active") ∧
        qualifies patientId ti.id db := by
  unfold subscribedItemsQuery qualifies
  rw [mem_sqlDistinct_iff]
  simp only [List.mem_flatMap, List.mem_filter, List.mem_map]
  constructor
  · rintro ⟨ti, ⟨hti, hact⟩, _tc, ⟨htc, hcond⟩, ⟨tie, ⟨htie, hcond2⟩, rfl⟩⟩
    simp only [Bool.and_eq_true, beq_iff_eq] at hact hcond hcond2
    exact ⟨ti, hti, hact, rfl, ⟨_tc, htc, hcond.1, hcond.2⟩,
      ⟨tie, htie, hcond2.1.1, hcond2.1.2, hcond2.2⟩⟩
  · rintro ⟨ti, hti, hact, rfl, ⟨tc, htc, hcid, hcact⟩, ⟨tie, htie, h1, h2, h3⟩⟩
    refine ⟨ti, ⟨hti, by simp [hact]⟩, tc, ⟨htc, by simp [hcid, hcact]⟩,
      ⟨tie, ⟨htie, by simp [h1, h2, h3]⟩, rfl⟩⟩

/-- The reactivation update touches only `selected` and `updated_date`, so
the upsert predicate is invariant under it. -/
theorem entryMatch_update (patientId itemId : Int) (nd : String) (targetId : Int)
    (now : Timestamp) (e : TrackItemEntry) :
    entryMatch patientId itemId nd
        (if e.id == targetId then { e with selected := 1, updated_date := now } else e)
      = entryMatch patientId itemId nd e := by
  by_cases h : (e.id == targetId) = true <;> simp [h, entryMatch]

theorem ensureStep_shape (tz patientId : Int) (now : Timestamp) (userId date)
    (acc : DB) (pr : Int × String) :
    ∃ E n, ensureStep tz patientId now userId date acc pr
      = { acc with trackItemEntries := E, nextEntryId := n } := by
  unfold ensureStep
  split
  · exact ⟨acc.trackItemEntries, acc.nextEntryId, rfl⟩
  · split
    · exact ⟨_, _, rfl⟩
    · split
      · exact ⟨_, acc.nextEntryId, rfl⟩
      · exact ⟨acc.trackItemEntries, acc.nextEntryId, rfl⟩

theorem ensureStep_preserves_good (tz patientId : Int) (now : Timestamp)
    (userId date : String) (acc : DB) (pr pr' : Int × String)
    (h : goodPair tz patientId date acc pr) :
    goodPair tz patientId date (ensureStep tz patientId now userId date acc pr') pr := by
  intro hsc
  obtain ⟨e, hfind, hsel⟩ := h hsc
  unfold ensureStep
  split
  · exact ⟨e, hfind, hsel⟩
  · split
    · exact ⟨e, find?_append_some _ _ _ _ hfind, hsel⟩
    · next existing _ =>
      split
      · refine ⟨if e.id == existing.id then { e with selected := 1, updated_date := now }
          else e, ?_, ?_⟩
        · show (acc.trackItemEntries.map _).find? _ = _
          rw [find?_map_invariant _ _ _ (entryMatch_update patientId pr.1 _ existing.id now),
            hfind]
          rfl
        · by_cases hid : (e.id == existing.id) = true <;> simp [hid, hsel]
      · exact ⟨e, hfind, hsel⟩

theorem ensureStep_establishes_good (tz patientId : Int) (now : Timestamp)
    (userId date : String) (acc : DB) (pr : Int × String) :
    goodPair tz patientId date (ensureStep tz patientId now userId date acc pr) pr := by
  intro hsc
  unfold ensureStep
  rw [hsc]
  simp only [Bool.not_true, Bool.false_eq_true, if_false]
  cases hfound : acc.trackItemEntries.find?
      (entryMatch patientId pr.1 (normalizeDateByFrequency tz date pr.2)) with
  | none =>
    refine ⟨⟨acc.nextEntryId, userId, patientId, pr.1,
      normalizeDateByFrequency tz date pr.2, 1, now, now⟩, ?_, rfl⟩
    show (acc.trackItemEntries ++ [_]).find? _ = _
    rw [find?_append_none _ _ _ hfound]
    simp [List.find?, entryMatch]
  | some existing =>
    by_cases hsel1 : (existing.selected == 1) = true
    · simp only [hsel1, Bool.not_true, Bool.false_eq_true, if_false]
      exact ⟨existing, hfound, by simpa using hsel1⟩
    · simp only [Bool.not_eq_true] at hsel1
      simp only [hsel1, Bool.not_false, if_true]
      refine ⟨{ existing with selected := 1, updated_date := now }, ?_, rfl⟩
      show (acc.trackItemEntries.map _).find? _ = _
      rw [find?_map_invariant _ _ _ (entryMatch_update patientId pr.1 _ existing.id now),
        hfound]
      simp

theorem ensureStep_id_of_good (tz patientId : Int) (now : Timestamp)
    (userId date : String) (acc : DB) (pr : Int × String)
    (h : goodPair tz patientId date acc pr) :
    ensureStep tz patientId now userId date acc pr = acc := by
  unfold ensureStep
  by_cases hsc : shouldCreateEntryForDate tz date pr.2 = true
  · obtain ⟨e, hfind, hsel⟩ := h hsc
    rw [hsc, hfind]
    simp [hsel]
  · simp only [Bool.not_eq_true] at hsc
    rw [hsc]
    simp

theorem ensureStep_entryIdsOk (tz patientId : Int) (now : Timestamp)
    (userId date : String) (acc : DB) (pr : Int × String) (h : entryIdsOk acc) :
    entryIdsOk (ensureStep tz patientId now userId date acc pr) := by
  obtain ⟨hpw, hbound⟩ := h
  unfold ensureStep
  split
  · exact ⟨hpw, hbound⟩
  · split
    · constructor
      · show (acc.trackItemEntries ++ [_]).Pairwise _
        rw [List.pairwise_append]
        refine ⟨hpw, List.pairwise_singleton _ _, ?_⟩
        intro a ha b hb
        simp only [List.mem_singleton] at hb
        subst hb
        have := hbound a ha
        simp only []
        omega
      · intro e he
        rcases List.mem_append.mp he with h1 | h1
        · have := hbound e h1
          show e.id < acc.nextEntryId + 1
          omega
        · simp only [List.mem_singleton] at h1
          subst h1
          show acc.nextEntryId < acc.nextEntryId + 1
          omega
    · next existing _ =>
      split
      · constructor
        · show (acc.trackItemEntries.map _).Pairwise _
          rw [List.pairwise_map]
          refine hpw.imp_of_mem ?_
          intro a b _ _ hne
          by_cases ha : (a.id == existing.id) = true <;>
            by_cases hb2 : (b.id == existing.id) = true <;>
            simp [ha, hb2] <;> exact hne
        · intro e he
          obtain ⟨e0, he0, rfl⟩ := List.mem_map.mp he
          have := hbound e0 he0
          by_cases hid : (e0.id == existing.id) = true <;> simp [hid] <;> exact this
      · exact ⟨hpw, hbound⟩

theorem ensureStep_qualifies (tz patientId : Int) (now : Timestamp)
    (userId date : String) (acc : DB) (pr : Int × String) (x : Int)
    (hids : acc.trackItemEntries.Pairwise (fun a b => ¬ a.id = b.id))
    (h : qualifies patientId x (ensureStep tz patientId now userId date acc pr)) :
    qualifies patientId x acc ∨ x = pr.1 := by
  unfold ensureStep at h
  split at h
  · exact Or.inl h
  · split at h
    · obtain ⟨e, he, hfields⟩ := h
      rcases List.mem_append.mp he with h1 | h1
      · exact Or.inl ⟨e, h1, hfields⟩
      · simp only [List.mem_singleton] at h1
        subst h1
        exact Or.inr hfields.1.symm
    · next existing hfound =>
      split at h
      · obtain ⟨e, he, hfields⟩ := h
        obtain ⟨e0, he0, rfl⟩ := List.mem_map.mp he
        by_cases hid : (e0.id == existing.id) = true
        · have hmem : existing ∈ acc.trackItemEntries := List.mem_of_find?_eq_some hfound
          have he0eq : e0 = existing :=
            pairwise_ne_eq_of_eq (fun a => a.id) _ hids e0 he0 existing hmem
              (by simpa using hid)
          subst he0eq
          have hpred := List.find?_some hfound
          simp only [entryMatch, Bool.and_eq_true, beq_iff_eq] at hpred
          simp only [hid, if_true] at hfields
          exact Or.inr (by rw [← hfields.1]; exact hpred.1.1)
        · simp only [hid, Bool.false_eq_true, if_false] at hfields
          exact Or.inl ⟨e0, he0, hfields⟩
      · exact Or.inl h

theorem foldl_preserves_good (tz patientId : Int) (now : Timestamp) (userId date : String)
    (L : List (Int × String)) (acc : DB) (pr : Int × String)
    (h : goodPair tz patientId date acc pr) :
    goodPair tz patientId date
      (L.foldl (ensureStep tz patientId now userId date) acc) pr := by
  induction L generalizing acc with
  | nil => exact h
  | cons p rest ih =>
    exact ih _ (ensureStep_preserves_good tz patientId now userId date acc pr p h)

theorem foldl_establishes_good (tz patientId : Int) (now : Timestamp) (userId date : String)
    (L : List (Int × String)) (acc : DB) :
    ∀ pr ∈ L, goodPair tz patientId date
      (L.foldl (ensureStep tz patientId now userId date) acc) pr := by
  induction L generalizing acc with
  | nil => intro pr h; exact absurd h (by simp)
  | cons p rest ih =>
    intro pr hpr
    rcases List.mem_cons.mp hpr with rfl | hm
    · exact foldl_preserves_good tz patientId now userId date rest _ pr
        (ensureStep_establishes_good tz patientId now userId date acc pr)
    · exact ih _ pr hm

theorem foldl_id_of_good (tz patientId : Int) (now : Timestamp) (userId date : String)
    (L : List (Int × String)) (acc : DB)
    (h : ∀ pr ∈ L, goodPair tz patientId date acc pr) :
    L.foldl (ensureStep tz patientId now userId date) acc = acc := by
  induction L with
  | nil => rfl
  | cons p rest ih =>
    rw [List.foldl_cons, ensureStep_id_of_good tz patientId now userId date acc p
      (h p (by simp))]
    exact ih (fun pr hm => h pr (by simp [hm]))

theorem foldl_qualifies (tz patientId : Int) (now : Timestamp) (userId date : String)
    (db0 : DB) (L : List (Int × String)) :
    ∀ acc : DB, (∀ pr ∈ L, qualifies patientId pr.1 db0) →
      (∀ x, qualifies patientId x acc → qualifies patientId x db0) →
      entryIdsOk acc →
      ∀ x, qualifies patientId x (L.foldl (ensureStep tz patientId now userId date) acc) →
        qualifies patientId x db0 := by
  induction L with
  | nil => intro acc _ hacc _ x hx; exact hacc x hx
  | cons p rest ih =>
    intro acc hL hacc hids x hx
    refine ih (ensureStep tz patientId now userId date acc p)
      (fun pr hm => hL pr (by simp [hm])) ?_
      (ensureStep_entryIdsOk tz patientId now userId date acc p hids) x hx
    intro y hy
    rcases ensureStep_qualifies tz patientId now userId date acc p y hids.1 hy with h1 | h2
    · exact hacc y h1
    · rw [h2]
      exact hL p (by simp)

theorem foldl_shape (tz patientId : Int) (now : Timestamp) (userId date : String)
    (L : List (Int × String)) :
    ∀ acc : DB, ∃ E n, L.foldl (ensureStep tz patientId now userId date) acc
      = { acc with trackItemEntries := E, nextEntryId := n } := by
  induction L with
  | nil => intro acc; exact ⟨acc.trackItemEntries, acc.nextEntryId, rfl⟩
  | cons p rest ih =>
    intro acc
    obtain ⟨E0, n0, h0⟩ := ensureStep_shape tz patientId now userId date acc p
    obtain ⟨E1, n1, h1⟩ := ih (ensureStep tz patientId now userId date acc p)
    refine ⟨E1, n1, ?_⟩
    rw [List.foldl_cons, h1, h0]

/-! ## Claim C1 -/

/-- C1: subscription inference is idempotent.  For a database whose entry
table has well-formed primary keys, running `ensureSubscribedEntries` a second
time with the same patient and date returns the state of the first run
unchanged (no row inserted, no `selected` flag or timestamp touched); and the
call writes nothing at all when the patient row is missing or the subscribed
(item, frequency) set is empty. -/
theorem C1_ensure_idempotent (tz patientId : Int) (date : String) (moduleNow : Timestamp)
    (db : DB) (hids : entryIdsOk db) :
    ensureSubscribedEntries tz moduleNow patientId date
        (ensureSubscribedEntries tz moduleNow patientId date db)
      = ensureSubscribedEntries tz moduleNow patientId date db ∧
    (db.patients.find? (fun p => p.id == patientId) = none →
      ensureSubscribedEntries tz moduleNow patientId date db = db) ∧
    (subscribedItemsQuery patientId db = [] →
      ensureSubscribedEntries tz moduleNow patientId date db = db) := by
  have hnoop_sub : ∀ d : DB, subscribedItemsQuery patientId d = [] →
      ensureSubscribedEntries tz moduleNow patientId date d = d := by
    intro d hs
    simp [ensureSubscribedEntries, hs]
  have hnoop_pat : ∀ d : DB, d.patients.find? (fun p => p.id == patientId) = none →
      ensureSubscribedEntries tz moduleNow patientId date d = d := by
    intro d hnp
    unfold ensureSubscribedEntries
    rw [hnp]
    split
    next => simp
    next patient heq => exact absurd heq (by simp)
  refine ⟨?_, hnoop_pat db, hnoop_sub db⟩
  by_cases hemp : subscribedItemsQuery patientId db = []
  · rw [hnoop_sub db hemp]
    exact hnoop_sub db hemp
  · cases hpat : db.patients.find? (fun p => p.id == patientId) with
    | none =>
      rw [hnoop_pat db hpat]
      exact hnoop_pat db hpat
    | some patient =>
      have hrun : ∀ d : DB, d.patients.find? (fun p => p.id == patientId) = some patient →
          ¬ subscribedItemsQuery patientId d = [] →
          ensureSubscribedEntries tz moduleNow patientId date d
            = (subscribedItemsQuery patientId d).foldl
                (ensureStep tz patientId moduleNow patient.user_id date) d := by
        intro d hp hs
        unfold ensureSubscribedEntries
        rw [if_neg (by simpa using hs), hp]
      rw [hrun db hpat hemp]
      obtain ⟨E, n, hshape⟩ :=
        foldl_shape tz patientId moduleNow patient.user_id date
          (subscribedItemsQuery patientId db) db
      have hpat1 : ((subscribedItemsQuery patientId db).foldl
          (ensureStep tz patientId moduleNow patient.user_id date) db).patients.find?
            (fun p => p.id == patientId) = some patient := by
        rw [hshape]
        exact hpat
      have hgood : ∀ pr ∈ subscribedItemsQuery patientId db,
          goodPair tz patientId date
            ((subscribedItemsQuery patientId db).foldl
              (ensureStep tz patientId moduleNow patient.user_id date) db) pr :=
        foldl_establishes_good tz patientId moduleNow patient.user_id date _ db
      have hLq : ∀ pr ∈ subscribedItemsQuery patientId db, qualifies patientId pr.1 db := by
        intro pr hm
        obtain ⟨ti, _, _, hpr, _, hq⟩ := (mem_subscribed_iff patientId db pr).mp hm
        rw [hpr]
        exact hq
      have hq1 : ∀ x, qualifies patientId x
          ((subscribedItemsQuery patientId db).foldl
            (ensureStep tz patientId moduleNow patient.user_id date) db) →
          qualifies patientId x db :=
        foldl_qualifies tz patientId moduleNow patient.user_id date db _ db hLq
          (fun _ hy => hy) hids
      have hsub1 : ∀ pr ∈ subscribedItemsQuery patientId
          ((subscribedItemsQuery patientId db).foldl
            (ensureStep tz patientId moduleNow patient.user_id date) db),
          pr ∈ subscribedItemsQuery patientId db := by
        intro pr hm
        obtain ⟨ti, hti, hact, hpr, htc, hqual⟩ :=
          (mem_subscribed_iff patientId _ pr).mp hm
        rw [hshape] at hti htc
        exact (mem_subscribed_iff patientId db pr).mpr
          ⟨ti, hti, hact, hpr, htc, hq1 ti.id (by exact hqual)⟩
      by_cases hemp1 : subscribedItemsQuery patientId
          ((subscribedItemsQuery patientId db).foldl
            (ensureStep tz patientId moduleNow patient.user_id date) db) = []
      · exact hnoop_sub _ hemp1
      · rw [hrun _ hpat1 hemp1]
        exact foldl_id_of_good tz patientId moduleNow patient.user_id date _ _
          (fun pr hm => hgood pr (hsub1 pr hm))

/-- A small concrete database used to witness C1: one active daily item in an
active category, one selected historical entry of patient 7. -/
def c1db : DB :=
  { patients := [⟨7, "u7"⟩]
    trackCategories := [⟨1, "General", "active"⟩]
    trackItems := [⟨1, 1, "code1", "Steps", "daily", "active", ⟨2024, 1, 1, 30⟩, ⟨2024, 1, 1, 30⟩⟩]
    questions := []
    responseOptions := []
    trackItemEntries := [⟨1, "u7", 7, 1, "01-02-2024", 1, ⟨2024, 1, 1, 30⟩, ⟨2024, 1, 1, 30⟩⟩]
    trackResponses := []
    nextItemId := 2
    nextQuestionId := 1
    nextOptionId := 1
    nextEntryId := 2
    nextResponseId := 1
    codeSeed := 0 }

/-- Witness for C1: a second run on the concrete database changes nothing,
and a missing patient is a no-op. -/
theorem C1_ensure_idempotent_witness :
    ensureSubscribedEntries 0 ⟨2024, 1, 3, 0⟩ 7 "01-03-2024"
        (ensureSubscribedEntries 0 ⟨2024, 1, 3, 0⟩ 7 "01-03-2024" c1db)
      = ensureSubscribedEntries 0 ⟨2024, 1, 3, 0⟩ 7 "01-03-2024" c1db ∧
    ensureSubscribedEntries 0 ⟨2024, 1, 3, 0⟩ 99 "01-03-2024" c1db = c1db := by
  have hok : entryIdsOk c1db := by
    constructor
    · exact List.pairwise_singleton _ _
    · intro e he
      simp only [c1db, List.mem_singleton] at he
      subst he
      decide
  exact ⟨(C1_ensure_idempotent 0 7 "01-03-2024" ⟨2024, 1, 3, 0⟩ c1db hok).1,
    (C1_ensure_idempotent 0 99 "01-03-2024" ⟨2024, 1, 3, 0⟩ c1db hok).2.1 (by decide)⟩

/-! ## Lemmas for claim C3 -/

theorem map_key_of_key {α : Type} (key : α → Int) (u : α → α)
    (h : ∀ a, key (u a) = key a) (l : List α) :
    (l.map u).map key = l.map key := by
  induction l with
  | nil => rfl
  | cons a as ih => simp [h a, ih]

theorem optInsert_foldl_cats (now : Timestamp) (qid : Int) (opts : List String) :
    ∀ acc : DB, (opts.foldl (optInsertStep now qid) acc).trackCategories
      = acc.trackCategories := by
  induction opts with
  | nil => intro acc; rfl
  | cons o os ih => intro acc; exact ih (optInsertStep now qid acc o)

theorem optInsert_foldl_items (now : Timestamp) (qid : Int) (opts : List String) :
    ∀ acc : DB, (opts.foldl (optInsertStep now qid) acc).trackItems = acc.trackItems := by
  induction opts with
  | nil => intro acc; rfl
  | cons o os ih => intro acc; exact ih (optInsertStep now qid acc o)

theorem optInsert_foldl_questions (now : Timestamp) (qid : Int) (opts : List String) :
    ∀ acc : DB, (opts.foldl (optInsertStep now qid) acc).questions = acc.questions := by
  induction opts with
  | nil => intro acc; rfl
  | cons o os ih => intro acc; exact ih (optInsertStep now qid acc o)

theorem optInsert_foldl_mem (now : Timestamp) (qid : Int) (opts : List String)
    (o : ResponseOption) :
    ∀ acc : DB, o ∈ acc.responseOptions →
      o ∈ (opts.foldl (optInsertStep now qid) acc).responseOptions := by
  induction opts with
  | nil => intro acc h; exact h
  | cons op os ih =>
    intro acc h
    exact ih (optInsertStep now qid acc op) (List.mem_append_left _ h)

theorem editStep_cats (now : Timestamp) (ti : Int) (acc : DB) (u : QuestionUpdate) :
    (editStep now ti acc u).trackCategories = acc.trackCategories := by
  unfold editStep
  by_cases ht : (!(idFalsy u.id)) = true
  · rw [if_pos ht]
    cases hop : u.options with
    | some opts =>
      simp only [hop]
      rw [optInsert_foldl_cats]
    | none => simp only [hop]
  · rw [if_neg ht]
    cases hop : u.options with
    | some opts =>
      simp only [hop]
      rw [optInsert_foldl_cats]
    | none => simp only [hop]

theorem editStep_items (now : Timestamp) (ti : Int) (acc : DB) (u : QuestionUpdate) :
    (editStep now ti acc u).trackItems = acc.trackItems := by
  unfold editStep
  by_cases ht : (!(idFalsy u.id)) = true
  · rw [if_pos ht]
    cases hop : u.options with
    | some opts =>
      simp only [hop]
      rw [optInsert_foldl_items]
    | none => simp only [hop]
  · rw [if_neg ht]
    cases hop : u.options with
    | some opts =>
      simp only [hop]
      rw [optInsert_foldl_items]
    | none => simp only [hop]

theorem editStep_qids (now : Timestamp) (ti : Int) (acc : DB) (u : QuestionUpdate) :
    ∃ tail, (editStep now ti acc u).questions.map (fun q => q.id)
      = acc.questions.map (fun q => q.id) ++ tail := by
  unfold editStep
  by_cases ht : (!(idFalsy u.id)) = true
  · rw [if_pos ht]
    cases hop : u.options with
    | some opts =>
      refine ⟨[], ?_⟩
      simp only [hop]
      rw [optInsert_foldl_questions, List.append_nil]
      apply map_key_of_key
      intro qq
      by_cases h : (qq.id == u.id.getD 0) = true <;> simp [h]
    | none =>
      refine ⟨[], ?_⟩
      simp only [hop]
      rw [List.append_nil]
      apply map_key_of_key
      intro qq
      by_cases h : (qq.id == u.id.getD 0) = true <;> simp [h]
  · rw [if_neg ht]
    cases hop : u.options with
    | some opts =>
      refine ⟨[acc.nextQuestionId], ?_⟩
      simp only [hop]
      rw [optInsert_foldl_questions]
      simp
    | none =>
      refine ⟨[acc.nextQuestionId], ?_⟩
      simp only [hop]
      simp

theorem editStep_opt_mem (now : Timestamp) (ti : Int) (acc : DB) (u : QuestionUpdate)
    (o : ResponseOption) (ho : o ∈ acc.responseOptions)
    (hu : idFalsy u.id = false → u.id = some o.question_id → u.options.isSome = true → False) :
    o ∈ (editStep now ti acc u).responseOptions := by
  unfold editStep
  by_cases ht : (!(idFalsy u.id)) = true
  · have htruthy : idFalsy u.id = false := by simpa using ht
    rw [if_pos ht]
    cases hop : u.options with
    | some opts =>
      simp only [hop]
      apply optInsert_foldl_mem
      show o ∈ (acc.responseOptions.filter (fun x => !(x.question_id == u.id.getD 0)))
      rw [List.mem_filter]
      refine ⟨ho, ?_⟩
      have hne : ¬ u.id = some o.question_id := by
        intro he
        exact hu htruthy he (by simp [hop])
      have hneq : ¬ o.question_id = u.id.getD 0 := by
        intro hq
        cases hid : u.id with
        | none => rw [hid] at htruthy; simp [idFalsy] at htruthy
        | some v =>
          rw [hid] at hq hne
          simp only [Option.getD_some] at hq
          exact hne (by rw [hq])
      simp [hneq]
    | none =>
      simp only [hop]
      exact ho
  · rw [if_neg ht]
    cases hop : u.options with
    | some opts =>
      simp only [hop]
      apply optInsert_foldl_mem
      exact ho
    | none =>
      simp only [hop]
      exact ho

theorem editFold_cats (now : Timestamp) (ti : Int) (L : List QuestionUpdate) :
    ∀ acc : DB, (L.foldl (editStep now ti) acc).trackCategories = acc.trackCategories := by
  induction L with
  | nil => intro acc; rfl
  | cons u us ih =>
    intro acc
    rw [List.foldl_cons, ih (editStep now ti acc u), editStep_cats]

theorem editFold_items (now : Timestamp) (ti : Int) (L : List QuestionUpdate) :
    ∀ acc : DB, (L.foldl (editStep now ti) acc).trackItems = acc.trackItems := by
  induction L with
  | nil => intro acc; rfl
  | cons u us ih =>
    intro acc
    rw [List.foldl_cons, ih (editStep now ti acc u), editStep_items]

theorem editFold_qids (now : Timestamp) (ti : Int) (L : List QuestionUpdate) :
    ∀ acc : DB, ∃ tail, (L.foldl (editStep now ti) acc).questions.map (fun q => q.id)
      = acc.questions.map (fun q => q.id) ++ tail := by
  induction L with
  | nil => intro acc; exact ⟨[], by simp⟩
  | cons u us ih =>
    intro acc
    obtain ⟨t1, h1⟩ := editStep_qids now ti acc u
    obtain ⟨t2, h2⟩ := ih (editStep now ti acc u)
    exact ⟨t1 ++ t2, by rw [List.foldl_cons, h2, h1, List.append_assoc]⟩

theorem editFold_opt_mem (now : Timestamp) (ti : Int) (L : List QuestionUpdate)
    (o : ResponseOption) :
    ∀ acc : DB, o ∈ acc.responseOptions →
      (∀ u ∈ L, idFalsy u.id = false → u.id = some o.question_id →
        u.options.isSome = true → False) →
      o ∈ (L.foldl (editStep now ti) acc).responseOptions := by
  induction L with
  | nil => intro acc h _; exact h
  | cons u us ih =>
    intro acc h hL
    exact ih (editStep now ti acc u)
      (editStep_opt_mem now ti acc u o h (hL u (by simp)))
      (fun u' hm => hL u' (by simp [hm]))

theorem editNameStage_cats (now : Timestamp) (ti : Int) (nameUpd : Option String) (db : DB) :
    (editNameStage now ti nameUpd db).trackCategories = db.trackCategories := by
  unfold editNameStage
  split
  · split <;> rfl
  · rfl

theorem editNameStage_questions (now : Timestamp) (ti : Int) (nameUpd : Option String)
    (db : DB) :
    (editNameStage now ti nameUpd db).questions = db.questions := by
  unfold editNameStage
  split
  · split <;> rfl
  · rfl

theorem editNameStage_options (now : Timestamp) (ti : Int) (nameUpd : Option String)
    (db : DB) :
    (editNameStage now ti nameUpd db).responseOptions = db.responseOptions := by
  unfold editNameStage
  split
  · split <;> rfl
  · rfl

theorem editNameStage_iids (now : Timestamp) (ti : Int) (nameUpd : Option String) (db : DB) :
    (editNameStage now ti nameUpd db).trackItems.map (fun i => i.id)
      = db.trackItems.map (fun i => i.id) := by
  unfold editNameStage
  split
  · split
    · rfl
    · apply map_key_of_key
      intro i
      by_cases h : (i.id == ti) = true <;> simp [h]
  · rfl

/-! ## Claim C3 -/

/-- A concrete database for the C3 counterexample: a custom goal (item 9)
with one mcq question (id 5) owning one stored option row. -/
def c3db : DB :=
  { patients := []
    trackCategories := [⟨1, "Custom", "active"⟩]
    trackItems := [⟨9, 1, "ic", "Goal", "daily", "active", ⟨2024, 1, 1, 0⟩, ⟨2024, 1, 1, 0⟩⟩]
    questions := [⟨5, 9, "qc", "Q?", "mcq", 0, none, "active", ⟨2024, 1, 1, 0⟩,
      ⟨2024, 1, 1, 0⟩, none, none⟩]
    responseOptions := [⟨1, 5, "oc", "Old", "active", ⟨2024, 1, 1, 0⟩, ⟨2024, 1, 1, 0⟩⟩]
    trackItemEntries := []
    trackResponses := []
    nextItemId := 10
    nextQuestionId := 6
    nextOptionId := 2
    nextEntryId := 1
    nextResponseId := 1
    codeSeed := 0 }

/-- C3 as stated is false: `editCustomGoal`, given options for the existing
question 5, hard-deletes the previously stored ResponseOption row (the
`deleteByFields` at line 877) before inserting the replacement set. -/
theorem C3_counterexample :
    (⟨1, 5, "oc", "Old", "active", ⟨2024, 1, 1, 0⟩, ⟨2024, 1, 1, 0⟩⟩ : ResponseOption)
        ∈ c3db.responseOptions ∧
    ¬ (⟨1, 5, "oc", "Old", "active", ⟨2024, 1, 1, 0⟩, ⟨2024, 1, 1, 0⟩⟩ : ResponseOption)
        ∈ (editCustomGoal ⟨2024, 1, 2, 0⟩ 9 none
            (some [⟨some 5, "Q?", "mcq", false, some ["A"]⟩]) c3db).responseOptions := by
  decide

/-- C3 amended: `removeCustomGoal` deletes nothing (questions, options and
categories are untouched; items and entries keep their rows, identified by
id); `editCustomGoal` never deletes TrackCategory, TrackItem or Question rows
(question ids are preserved, possibly extended by inserts), and preserves
every ResponseOption row except those of a question edited by id with an
options list supplied, whose previous option rows are hard-deleted and
replaced. -/
theorem C3_soft_delete (now : Timestamp) (ti pid : Int) (nameUpd : Option String)
    (qUpd : Option (List QuestionUpdate)) (db : DB) :
    ((removeCustomGoal now ti pid db).questions = db.questions ∧
     (removeCustomGoal now ti pid db).responseOptions = db.responseOptions ∧
     (removeCustomGoal now ti pid db).trackCategories = db.trackCategories ∧
     (removeCustomGoal now ti pid db).trackItems.map (fun i => i.id)
        = db.trackItems.map (fun i => i.id) ∧
     (removeCustomGoal now ti pid db).trackItemEntries.map (fun e => e.id)
        = db.trackItemEntries.map (fun e => e.id)) ∧
    ((editCustomGoal now ti nameUpd qUpd db).trackCategories = db.trackCategories ∧
     (editCustomGoal now ti nameUpd qUpd db).trackItems.map (fun i => i.id)
        = db.trackItems.map (fun i => i.id) ∧
     (∃ tail, (editCustomGoal now ti nameUpd qUpd db).questions.map (fun q => q.id)
        = db.questions.map (fun q => q.id) ++ tail) ∧
     (∀ o ∈ db.responseOptions,
       (∀ u ∈ qUpd.getD [], idFalsy u.id = false → u.id = some o.question_id →
         u.options.isSome = true → False) →
       o ∈ (editCustomGoal now ti nameUpd qUpd db).responseOptions)) := by
  constructor
  · refine ⟨rfl, rfl, rfl, ?_, ?_⟩
    · apply map_key_of_key
      intro i
      by_cases h : (i.id == ti) = true <;> simp [h]
    · apply map_key_of_key
      intro e
      by_cases h : (e.track_item_id == ti && e.patient_id == pid) = true <;> simp [h]
  · have hname_items := editNameStage_iids now ti nameUpd db
    have hname_cats := editNameStage_cats now ti nameUpd db
    have hname_qs := editNameStage_questions now ti nameUpd db
    have hname_os := editNameStage_options now ti nameUpd db
    cases qUpd with
    | none =>
      refine ⟨hname_cats, hname_items, ⟨[], ?_⟩, fun o ho _ => ?_⟩
      · show (editNameStage now ti nameUpd db).questions.map (fun q => q.id) = _
        rw [List.append_nil, hname_qs]
      · show o ∈ (editNameStage now ti nameUpd db).responseOptions
        rw [hname_os]; exact ho
    | some qsU =>
      by_cases hempty : qsU.isEmpty = true
      · simp only [editCustomGoal, if_pos hempty]
        refine ⟨hname_cats, hname_items, ⟨[], ?_⟩, fun o ho _ => ?_⟩
        · rw [List.append_nil, hname_qs]
        · rw [hname_os]; exact ho
      · simp only [editCustomGoal, if_neg hempty]
        refine ⟨?_, ?_, ?_, ?_⟩
        · rw [editFold_cats, hname_cats]
        · rw [editFold_items]
          exact hname_items
        · obtain ⟨tail, htail⟩ := editFold_qids now ti qsU (editNameStage now ti nameUpd db)
          exact ⟨tail, by rw [htail, hname_qs]⟩
        · intro o ho hcond
          exact editFold_opt_mem now ti qsU o _ (by rw [hname_os]; exact ho)
            (fun u hm => hcond u (by simpa using hm))

/-- Witness for the amended C3 at a concrete database and edit. -/
theorem C3_soft_delete_witness :
    (removeCustomGoal ⟨2024, 1, 2, 0⟩ 9 7 c3db).responseOptions = c3db.responseOptions ∧
    (⟨1, 5, "oc", "Old", "active", ⟨2024, 1, 1, 0⟩, ⟨2024, 1, 1, 0⟩⟩ : ResponseOption)
      ∈ (editCustomGoal ⟨2024, 1, 2, 0⟩ 9 (some "NewName")
          (some [⟨none, "Extra", "text", false, none⟩]) c3db).responseOptions := by
  refine ⟨(C3_soft_delete ⟨2024, 1, 2, 0⟩ 9 7 none none c3db).1.2.1, ?_⟩
  exact (C3_soft_delete ⟨2024, 1, 2, 0⟩ 9 7 (some "NewName")
      (some [⟨none, "Extra", "text", false, none⟩]) c3db).2.2.2.2
    ⟨1, 5, "oc", "Old", "active", ⟨2024, 1, 1, 0⟩, ⟨2024, 1, 1, 0⟩⟩ (by decide)
    (by intro u hm h1 h2 h3; simp at hm; subst hm; simp [idFalsy] at h1)

/-! ## `getSummariesForItem` (lines 493-594) -/

/-- One row of the main query (lines 496-512): a question joined with its
entry, item and category name, LEFT JOINed with the entry's response for that
question (`none` models SQL NULL). -/
structure MainRow where
  q : Question
  category_name : String
  answer : Option String
  response_updated_date : Option Timestamp
deriving DecidableEq, Repr

/-- Insert into a list sorted by question id (`ORDER BY q.id`). -/
def insertByQId (r : MainRow) : List MainRow → List MainRow
  | [] => [r]
  | x :: xs => if r.q.id < x.q.id then r :: x :: xs else x :: insertByQId r xs

/-- Sort the joined rows by question id (`ORDER BY q.id`). -/
def sortByQId : List MainRow → List MainRow
  | [] => []
  | x :: xs => insertByQId x (sortByQId xs)

/-- The joins of the main query before ordering: active questions INNER
JOINed with the entry (`tie.track_item_id = q.item_id AND tie.id = entryId`),
the item and the category, LEFT JOINed with responses on
`question_id = q.id AND track_item_entry_id = entryId`. -/
def mainRowsUnsorted (db : DB) (entryId : Int) : List MainRow :=
  (db.questions.filter (fun q => q.status == "active")).flatMap (fun q =>
    (db.trackItemEntries.filter (fun tie =>
        tie.track_item_id == q.item_id && tie.id == entryId)).flatMap (fun _tie =>
      (db.trackItems.filter (fun ti => ti.id == q.item_id)).flatMap (fun ti =>
        (db.trackCategories.filter (fun tc => tc.id == ti.category_id)).flatMap (fun tc =>
          if (db.trackResponses.filter (fun r =>
              r.question_id == q.id && r.track_item_entry_id == entryId)).isEmpty then
            [⟨q, tc.name, none, none⟩]
          else
            (db.trackResponses.filter (fun r =>
                r.question_id == q.id && r.track_item_entry_id == entryId)).map
              (fun r => ⟨q, tc.name, some r.answer, some r.updated_date⟩)))))

/-- The main query result (lines 496-512). -/
def mainRows (db : DB) (entryId : Int) : List MainRow :=
  sortByQId (mainRowsUnsorted db entryId)

/-- One step of the `lastUpdatedDate` scan (lines 562-571): replace the
accumulator when it is null or the row's response date is strictly more
recent (`updateDate > lastUpdatedDate` compares instants). -/
def luStep (acc : Option Timestamp) (r : MainRow) : Option Timestamp :=
  match r.response_updated_date with
  | none => acc
  | some d =>
    match acc with
    | none => some d
    | some cur => if dtVal cur < dtVal d then some d else some cur

/-- The per-question summary loop (lines 579-592), reached when the category
is not Custom or no response date was seen: options of the distinct question
ids (`[...new Set]` keeps first occurrences), then for each question skip
falsy answers and templates, render visible ones and keep truthy summaries. -/
def perQuestionSummaries (db : DB) (mainQuery : List MainRow)
    (answerMap : List (Int × String)) : List String :=
  (mainQuery.map (fun r => r.q)).foldl (fun summaries question =>
    match lookupAnswer answerMap question.id with
    | none => summaries
    | some ans =>
      if ans == "" then summaries
      else
        match question.summary_template with
        | none => summaries
        | some tmpl =>
          if tmpl == "" then summaries
          else if isQuestionVisible ((mainQuery.map (fun r => r.q)).length + 1) question
              answerMap (mainQuery.map (fun r => r.q))
              (db.responseOptions.filter (fun o =>
                (sqlDistinct ((mainQuery.map (fun r => r.q)).map (fun q => q.id))).contains
                    o.question_id
                  && o.status == "active")) then
            match generateSummary tmpl ans with
            | none => summaries
            | some s => if s == "" then summaries else summaries ++ [s]
          else summaries) []

/-- `getSummariesForItem` (lines 493-594).  The answer map is built by
overwriting assignments (last response row wins), modelled by reversing the
row list under a first-match lookup. -/
def getSummariesForItem (db : DB) (entryId : Int) : List String :=
  match mainRows db entryId with
  | [] => []
  | r0 :: rest =>
    if ((r0 :: rest).filter (fun r => r.answer.isSome)).isEmpty then []
    else
      match r0.category_name == "Custom",
          ((r0 :: rest).filter (fun r => r.answer.isSome)).foldl luStep none with
      | true, some lu => ["Last updated: " ++ formatMMDDYYYY lu]
      | _, _ =>
        perQuestionSummaries db (r0 :: rest)
          ((((r0 :: rest).filter (fun r => r.answer.isSome)).map
            (fun r => (r.q.id, r.answer.getD ""))).reverse)

theorem mem_insertByQId (r a : MainRow) (l : List MainRow) :
    a ∈ insertByQId r l ↔ a = r ∨ a ∈ l := by
  induction l with
  | nil => simp [insertByQId]
  | cons x xs ih =>
    unfold insertByQId
    by_cases h : r.q.id < x.q.id
    · rw [if_pos h]
      simp only [List.mem_cons]
    · rw [if_neg h]
      simp only [List.mem_cons, ih]
      tauto

theorem mem_sortByQId (a : MainRow) (l : List MainRow) : a ∈ sortByQId l ↔ a ∈ l := by
  induction l with
  | nil => simp [sortByQId]
  | cons x xs ih => simp [sortByQId, mem_insertByQId, ih]

/-- Every row of the main query carrying an answer came from a joined
response row, so it also carries that response's `updated_date`. -/
theorem mainRows_date_some (db : DB) (e : Int) :
    ∀ r ∈ mainRows db e, r.answer.isSome = true → r.response_updated_date.isSome = true := by
  intro r hr ha
  rw [mainRows, mem_sortByQId] at hr
  simp only [mainRowsUnsorted, List.mem_flatMap] at hr
  obtain ⟨q, _hq, hr⟩ := hr
  obtain ⟨tie, _htie, hr⟩ := hr
  obtain ⟨ti, _hti, hr⟩ := hr
  obtain ⟨tc, _htc, hr⟩ := hr
  split at hr
  · rw [List.mem_singleton] at hr
    subst hr
    simp at ha
  · rw [List.mem_map] at hr
    obtain ⟨resp, _, hresp⟩ := hr
    subst hresp
    rfl

/-- The `lastUpdatedDate` fold from a non-null accumulator yields a maximum
of the accumulator and the scanned response dates. -/
theorem luFold_acc (l : List MainRow) : ∀ cur : Timestamp,
    ∃ t, l.foldl luStep (some cur) = some t ∧
      (t = cur ∨ some t ∈ l.map (fun r => r.response_updated_date)) ∧
      dtVal cur ≤ dtVal t ∧
      (∀ r ∈ l, ∀ t2, r.response_updated_date = some t2 → dtVal t2 ≤ dtVal t) := by
  induction l with
  | nil =>
    intro cur
    exact ⟨cur, rfl, Or.inl rfl, le_refl _, by intro r hr; cases hr⟩
  | cons r rs ih =>
    intro cur
    rw [List.foldl_cons]
    cases hd : r.response_updated_date with
    | none =>
      have hstep : luStep (some cur) r = some cur := by simp [luStep, hd]
      rw [hstep]
      obtain ⟨t, h1, h2, h3, h4⟩ := ih cur
      refine ⟨t, h1, ?_, h3, ?_⟩
      · cases h2 with
        | inl h => exact Or.inl h
        | inr h => exact Or.inr (by rw [List.map_cons]; exact List.mem_cons_of_mem _ h)
      · intro x hx t2 ht2
        cases hx with
        | head => rw [hd] at ht2; cases ht2
        | tail _ hx => exact h4 x hx t2 ht2
    | some d =>
      have hstep : luStep (some cur) r
          = if dtVal cur < dtVal d then some d else some cur := by simp [luStep, hd]
      rw [hstep]
      by_cases hlt : dtVal cur < dtVal d
      · rw [if_pos hlt]
        obtain ⟨t, h1, h2, h3, h4⟩ := ih d
        refine ⟨t, h1, ?_, le_of_lt (lt_of_lt_of_le hlt h3), ?_⟩
        · cases h2 with
          | inl h => exact Or.inr (by simp [h, hd])
          | inr h => exact Or.inr (by rw [List.map_cons]; exact List.mem_cons_of_mem _ h)
        · intro x hx t2 ht2
          cases hx with
          | head =>
            rw [hd] at ht2
            injection ht2 with h
            subst h
            exact h3
          | tail _ hx => exact h4 x hx t2 ht2
      · rw [if_neg hlt]
        obtain ⟨t, h1, h2, h3, h4⟩ := ih cur
        refine ⟨t, h1, ?_, h3, ?_⟩
        · cases h2 with
          | inl h => exact Or.inl h
          | inr h => exact Or.inr (by rw [List.map_cons]; exact List.mem_cons_of_mem _ h)
        · intro x hx t2 ht2
          cases hx with
          | head =>
            rw [hd] at ht2
            injection ht2 with h
            subst h
            exact le_trans (not_lt.mp hlt) h3
          | tail _ hx => exact h4 x hx t2 ht2

/-- Over a non-empty row list whose members all carry a response date, the
scan yields one of those dates, and a maximal one. -/
theorem luFold_some (l : List MainRow)
    (hall : ∀ r ∈ l, r.response_updated_date.isSome = true) (hne : l ≠ []) :
    ∃ t, l.foldl luStep none = some t ∧
      some t ∈ l.map (fun r => r.response_updated_date) ∧
      (∀ r ∈ l, ∀ t2, r.response_updated_date = some t2 → dtVal t2 ≤ dtVal t) := by
  cases l with
  | nil => exact absurd rfl hne
  | cons r rs =>
    cases hd : r.response_updated_date with
    | none =>
      have := hall r (List.mem_cons_self r rs)
      rw [hd] at this
      simp at this
    | some d =>
      rw [List.foldl_cons]
      have hstep : luStep none r = some d := by simp [luStep, hd]
      rw [hstep]
      obtain ⟨t, h1, h2, h3, h4⟩ := luFold_acc rs d
      refine ⟨t, h1, ?_, ?_⟩
      · cases h2 with
        | inl h => simp [h, hd]
        | inr h => exact by rw [List.map_cons]; exact List.mem_cons_of_mem _ h
      · intro x hx t2 ht2
        cases hx with
        | head =>
          rw [hd] at ht2
          injection ht2 with h
          subst h
          exact h3
        | tail _ hx => exact h4 x hx t2 ht2

/-! ## Claim C4 -/

/-- C4: when every main-query row of the entry carries category name
"Custom", `getSummariesForItem` returns the empty list if no answered row
exists, and otherwise exactly the single summary `"Last updated: "` followed
by the MM-DD-YYYY formatting of a most recent response `updated_date` among
the entry's answered rows; it never reaches the per-question rendering. -/
theorem C4_custom_last_updated (db : DB) (entryId : Int)
    (hcat : ∀ r ∈ mainRows db entryId, r.category_name = "Custom") :
    (((mainRows db entryId).filter (fun r => r.answer.isSome)) = [] →
        getSummariesForItem db entryId = []) ∧
    (((mainRows db entryId).filter (fun r => r.answer.isSome)) ≠ [] →
      ∃ t, some t ∈ ((mainRows db entryId).filter (fun r => r.answer.isSome)).map
              (fun r => r.response_updated_date) ∧
        (∀ r ∈ (mainRows db entryId).filter (fun r => r.answer.isSome),
          ∀ t2, r.response_updated_date = some t2 → dtVal t2 ≤ dtVal t) ∧
        getSummariesForItem db entryId = ["Last updated: " ++ formatMMDDYYYY t]) := by
  cases hm : mainRows db entryId with
  | nil =>
    constructor
    · intro _
      simp [getSummariesForItem, hm]
    · intro hne
      exact absurd rfl hne
  | cons r0 rest =>
    constructor
    · intro hfe
      simp only [getSummariesForItem, hm, hfe]
      rfl
    · intro hne
      have hall : ∀ r ∈ (r0 :: rest).filter (fun r => r.answer.isSome),
          r.response_updated_date.isSome = true := by
        intro r hr
        exact mainRows_date_some db entryId r
          (by rw [hm]; exact List.mem_of_mem_filter hr) (List.mem_filter.mp hr).2
      obtain ⟨t, hfold, hmem, hmax⟩ := luFold_some _ hall hne
      have hcust : (r0.category_name == "Custom") = true := by
        have := hcat r0 (by rw [hm]; exact List.mem_cons_self r0 rest)
        simp [this]
      refine ⟨t, hmem, hmax, ?_⟩
      simp only [getSummariesForItem, hm]
      cases hq : (r0 :: rest).filter (fun r => r.answer.isSome) with
      | nil => exact absurd hq hne
      | cons a as =>
        rw [hq] at hfold
        rw [hfold, hcust]
        rfl

/-- A concrete Custom-category database: item 9 in category "Custom", one
active question (id 5) on entry 1, one response updated 2024-01-02. -/
def c4db : DB :=
  { patients := []
    trackCategories := [⟨1, "Custom", "active"⟩]
    trackItems := [⟨9, 1, "ic", "Goal", "daily", "active", ⟨2024, 1, 1, 0⟩, ⟨2024, 1, 1, 0⟩⟩]
    questions := [⟨5, 9, "qc", "Q?", "text", 0, none, "active", ⟨2024, 1, 1, 0⟩,
      ⟨2024, 1, 1, 0⟩, none, none⟩]
    responseOptions := []
    trackItemEntries := [⟨1, "u", 7, 9, "01-01-2024", 1, ⟨2024, 1, 1, 0⟩, ⟨2024, 1, 1, 0⟩⟩]
    trackResponses := [⟨1, "u", 7, 5, 1, "\"hi\"", ⟨2024, 1, 1, 0⟩, ⟨2024, 1, 2, 0⟩⟩]
    nextItemId := 10
    nextQuestionId := 6
    nextOptionId := 1
    nextEntryId := 2
    nextResponseId := 2
    codeSeed := 0 }

/-- Witness for C4 at a concrete Custom entry with one answered question. -/
theorem C4_custom_last_updated_witness :
    getSummariesForItem c4db 1 = ["Last updated: 01-02-2024"] := by
  obtain ⟨t, hmem, hmax, heq⟩ := (C4_custom_last_updated c4db 1 (by decide)).2 (by decide)
  have hl : ((mainRows c4db 1).filter (fun r => r.answer.isSome)).map
      (fun r => r.response_updated_date) = [some ⟨2024, 1, 2, 0⟩] := by decide
  rw [hl] at hmem
  have ht : t = ⟨2024, 1, 2, 0⟩ := by simpa using hmem
  rw [heq, ht]
  decide

/-! ## Claim C10: timestamp discipline

The module-level `const now = getCurrentTimestamp()` (line 31) is the
`moduleNow` parameter shared by the six writers that close over it;
`saveResponse` and `addOptionToQuestion` call `getCurrentTimestamp()` inside
the function body, modelled as their `callNow` parameter. -/

/-- Every row of `post` is a pre-existing row of `pre` or carries `ts` as its
update stamp. -/
def writesStamped {α : Type} (upd : α → Timestamp) (ts : Timestamp)
    (pre post : List α) : Prop :=
  ∀ x ∈ post, x ∈ pre ∨ upd x = ts

theorem stamp_refl {α : Type} (upd : α → Timestamp) (ts : Timestamp) (l : List α) :
    writesStamped upd ts l l :=
  fun x hx => Or.inl hx

theorem stamp_mono {α : Type} (upd : α → Timestamp) (ts : Timestamp)
    (pre mid post : List α) (h1 : writesStamped upd ts pre mid)
    (h2 : writesStamped upd ts mid post) : writesStamped upd ts pre post := by
  intro x hx
  cases h2 x hx with
  | inl h => exact h1 x h
  | inr h => exact Or.inr h

/-- Options inserted by the option loops are stamped with the loop's clock. -/
theorem optInsert_foldl_stamp (now : Timestamp) (qid : Int) (opts : List String) :
    ∀ (a : DB), ∀ o ∈ (opts.foldl (optInsertStep now qid) a).responseOptions,
      o ∈ a.responseOptions ∨ o.updated_date = now := by
  induction opts with
  | nil => intro a o ho; exact Or.inl ho
  | cons x xs ih =>
    intro a o ho
    rw [List.foldl_cons] at ho
    cases ih (optInsertStep now qid a x) o ho with
    | inl h =>
      replace h : o ∈ a.responseOptions ++
          [⟨a.nextOptionId, qid, genCode a.codeSeed, trimStr x, "active", now, now⟩] := h
      rcases List.mem_append.mp h with h | h
      · exact Or.inl h
      · rw [List.mem_singleton] at h
        subst h
        exact Or.inr rfl
    | inr h => exact Or.inr h

/-- One `ensureSubscribedEntries` iteration stamps what it writes. -/
theorem ensureStep_stamp (tz patientId : Int) (now : Timestamp) (userId date : String)
    (pre : List TrackItemEntry) (acc : DB) (pr : Int × String)
    (h : writesStamped TrackItemEntry.updated_date now pre acc.trackItemEntries) :
    writesStamped TrackItemEntry.updated_date now pre
      (ensureStep tz patientId now userId date acc pr).trackItemEntries := by
  unfold ensureStep
  by_cases hb : (!(shouldCreateEntryForDate tz date pr.2)) = true
  · rw [if_pos hb]
    exact h
  · rw [if_neg hb]
    cases hf : acc.trackItemEntries.find?
        (entryMatch patientId pr.1 (normalizeDateByFrequency tz date pr.2)) with
    | none =>
      intro x hx
      replace hx : x ∈ acc.trackItemEntries ++
          [⟨acc.nextEntryId, userId, patientId, pr.1,
            normalizeDateByFrequency tz date pr.2, 1, now, now⟩] := hx
      rcases List.mem_append.mp hx with hx | hx
      · exact h x hx
      · rw [List.mem_singleton] at hx
        subst hx
        exact Or.inr rfl
    | some ex =>
      show writesStamped TrackItemEntry.updated_date now pre
        ((if !(ex.selected == 1) then
            { acc with trackItemEntries := acc.trackItemEntries.map (fun e =>
                if e.id == ex.id then { e with selected := 1, updated_date := now } else e) }
          else acc).trackItemEntries)
      by_cases hsel : (!(ex.selected == 1)) = true
      · rw [if_pos hsel]
        intro x hx
        replace hx : x ∈ acc.trackItemEntries.map (fun e =>
            if e.id == ex.id then { e with selected := 1, updated_date := now } else e) := hx
        obtain ⟨e, he, hfe⟩ := List.mem_map.mp hx
        by_cases hid : (e.id == ex.id) = true
        · rw [if_pos hid] at hfe
          exact Or.inr (by rw [← hfe])
        · rw [if_neg hid] at hfe
          exact hfe ▸ h e he
      · rw [if_neg hsel]
        exact h

theorem ensure_foldl_stamp (tz patientId : Int) (now : Timestamp) (userId date : String)
    (pre : List TrackItemEntry) (L : List (Int × String)) :
    ∀ acc : DB, writesStamped TrackItemEntry.updated_date now pre acc.trackItemEntries →
      writesStamped TrackItemEntry.updated_date now pre
        ((L.foldl (ensureStep tz patientId now userId date) acc).trackItemEntries) := by
  induction L with
  | nil => intro acc h; exact h
  | cons pr prs ih =>
    intro acc h
    rw [List.foldl_cons]
    exact ih _ (ensureStep_stamp tz patientId now userId date pre acc pr h)

/-- `ensureSubscribedEntries` stamps every entry row it writes. -/
theorem ensure_stamp (tz : Int) (now : Timestamp) (patientId : Int) (date : String)
    (db : DB) :
    writesStamped TrackItemEntry.updated_date now db.trackItemEntries
      (ensureSubscribedEntries tz now patientId date db).trackItemEntries := by
  simp only [ensureSubscribedEntries]
  by_cases he : (subscribedItemsQuery patientId db).isEmpty = true
  · rw [if_pos he]
    exact stamp_refl _ _ _
  · rw [if_neg he]
    cases hp : db.patients.find? (fun p => p.id == patientId) with
    | none => exact stamp_refl _ _ _
    | some patient =>
      exact ensure_foldl_stamp tz patientId now patient.user_id date db.trackItemEntries _
        db (stamp_refl _ _ _)

/-- `addTrackItemOnDate` stamps every entry row it writes. -/
theorem addTrack_stamp (tz : Int) (now : Timestamp) (itemId : Int) (userId : String)
    (patientId : Int) (date : String) (db : DB) :
    writesStamped TrackItemEntry.updated_date now db.trackItemEntries
      (addTrackItemOnDate tz now itemId userId patientId date db).trackItemEntries := by
  simp only [addTrackItemOnDate]
  split
  next ex _ =>
    intro x hx
    replace hx : x ∈ db.trackItemEntries.map (fun e =>
        if e.id == ex.id then { e with selected := 1, updated_date := now } else e) := hx
    obtain ⟨e, he, hfe⟩ := List.mem_map.mp hx
    by_cases hid : (e.id == ex.id) = true
    · rw [if_pos hid] at hfe
      exact Or.inr (by rw [← hfe])
    · rw [if_neg hid] at hfe
      exact hfe ▸ Or.inl he
  next =>
    intro x hx
    rcases List.mem_append.mp hx with hx | hx
    · exact Or.inl hx
    · rw [List.mem_singleton] at hx
      subst hx
      exact Or.inr rfl

/-- `addCustomGoalStep` leaves items untouched. -/
theorem addStep_items (now : Timestamp) (itemId : Int) (acc : DB)
    (q : CustomGoalQuestion) :
    (addCustomGoalStep now itemId acc q).trackItems = acc.trackItems := by
  simp only [addCustomGoalStep]
  by_cases hb : (q.type == qtBoolean || q.type == "boolean") = true
  · rw [if_pos hb]
  · rw [if_neg hb]
    by_cases hm : (q.type == qtMCQ || q.type == qtMSQ
        || q.type == "mcq" || q.type == "msq") = true
    · rw [if_pos hm]
      cases hop : q.options with
      | some opts =>
        simp only [hop]
        by_cases hce : ((opts.filter (fun o => !(trimStr o == ""))).isEmpty) = true
        · rw [if_pos hce]
        · rw [if_neg hce]
          rw [optInsert_foldl_items]
      | none => simp only [hop]
    · rw [if_neg hm]

/-- Questions written by `addCustomGoalStep` are stamped. -/
theorem addStep_q_stamp (now : Timestamp) (itemId : Int) (pre : List Question)
    (acc : DB) (q : CustomGoalQuestion)
    (h : writesStamped Question.updated_date now pre acc.questions) :
    writesStamped Question.updated_date now pre
      (addCustomGoalStep now itemId acc q).questions := by
  have happ : writesStamped Question.updated_date now pre (acc.questions ++
      [⟨acc.nextQuestionId, itemId, genCode acc.codeSeed, q.text, q.type,
        (if q.required then 1 else 0), none, "active", now, now, none, none⟩]) := by
    intro x hx
    rcases List.mem_append.mp hx with hx | hx
    · exact h x hx
    · rw [List.mem_singleton] at hx
      subst hx
      exact Or.inr rfl
  simp only [addCustomGoalStep]
  by_cases hb : (q.type == qtBoolean || q.type == "boolean") = true
  · rw [if_pos hb]
    exact happ
  · rw [if_neg hb]
    by_cases hm : (q.type == qtMCQ || q.type == qtMSQ
        || q.type == "mcq" || q.type == "msq") = true
    · rw [if_pos hm]
      cases hop : q.options with
      | some opts =>
        simp only [hop]
        by_cases hce : ((opts.filter (fun o => !(trimStr o == ""))).isEmpty) = true
        · rw [if_pos hce]
          exact happ
        · rw [if_neg hce]
          rw [optInsert_foldl_questions]
          exact happ
      | none =>
        simp only [hop]
        exact happ
    · rw [if_neg hm]
      exact happ

/-- Options written by `addCustomGoalStep` are stamped. -/
theorem addStep_o_stamp (now : Timestamp) (itemId : Int) (pre : List ResponseOption)
    (acc : DB) (q : CustomGoalQuestion)
    (h : writesStamped ResponseOption.updated_date now pre acc.responseOptions) :
    writesStamped ResponseOption.updated_date now pre
      (addCustomGoalStep now itemId acc q).responseOptions := by
  simp only [addCustomGoalStep]
  by_cases hb : (q.type == qtBoolean || q.type == "boolean") = true
  · rw [if_pos hb]
    intro x hx
    replace hx : x ∈ acc.responseOptions ++
        [⟨acc.nextOptionId, acc.nextQuestionId, genCode (acc.codeSeed + 1), "Yes", "active",
            now, now⟩,
         ⟨acc.nextOptionId + 1, acc.nextQuestionId, genCode (acc.codeSeed + 1 + 1), "No",
            "active", now, now⟩] := hx
    rcases List.mem_append.mp hx with hx | hx
    · exact h x hx
    · rcases List.mem_cons.mp hx with hx | hx
      · subst hx
        exact Or.inr rfl
      · rw [List.mem_singleton] at hx
        subst hx
        exact Or.inr rfl
  · rw [if_neg hb]
    by_cases hm : (q.type == qtMCQ || q.type == qtMSQ
        || q.type == "mcq" || q.type == "msq") = true
    · rw [if_pos hm]
      cases hop : q.options with
      | some opts =>
        simp only [hop]
        by_cases hce : ((opts.filter (fun o => !(trimStr o == ""))).isEmpty) = true
        · rw [if_pos hce]
          exact h
        · rw [if_neg hce]
          intro x hx
          rcases optInsert_foldl_stamp now acc.nextQuestionId _ _ x hx with hx | hx
          · exact h x hx
          · exact Or.inr hx
      | none =>
        simp only [hop]
        exact h
    · rw [if_neg hm]
      exact h

theorem addFold_items (now : Timestamp) (itemId : Int) (L : List CustomGoalQuestion) :
    ∀ acc : DB, (L.foldl (addCustomGoalStep now itemId) acc).trackItems
      = acc.trackItems := by
  induction L with
  | nil => intro acc; rfl
  | cons q qs ih =>
    intro acc
    rw [List.foldl_cons, ih, addStep_items]

theorem addFold_q_stamp (now : Timestamp) (itemId : Int) (pre : List Question)
    (L : List CustomGoalQuestion) :
    ∀ acc : DB, writesStamped Question.updated_date now pre acc.questions →
      writesStamped Question.updated_date now pre
        ((L.foldl (addCustomGoalStep now itemId) acc).questions) := by
  induction L with
  | nil => intro acc h; exact h
  | cons q qs ih =>
    intro acc h
    rw [List.foldl_cons]
    exact ih _ (addStep_q_stamp now itemId pre acc q h)

theorem addFold_o_stamp (now : Timestamp) (itemId : Int) (pre : List ResponseOption)
    (L : List CustomGoalQuestion) :
    ∀ acc : DB, writesStamped ResponseOption.updated_date now pre acc.responseOptions →
      writesStamped ResponseOption.updated_date now pre
        ((L.foldl (addCustomGoalStep now itemId) acc).responseOptions) := by
  induction L with
  | nil => intro acc h; exact h
  | cons q qs ih =>
    intro acc h
    rw [List.foldl_cons]
    exact ih _ (addStep_o_stamp now itemId pre acc q h)

/-- Questions written by an `editCustomGoal` question update are stamped. -/
theorem editStep_q_stamp (now : Timestamp) (ti : Int) (pre : List Question)
    (acc : DB) (u : QuestionUpdate)
    (h : writesStamped Question.updated_date now pre acc.questions) :
    writesStamped Question.updated_date now pre (editStep now ti acc u).questions := by
  have hmap : writesStamped Question.updated_date now pre
      (acc.questions.map (fun qq =>
        if qq.id == u.id.getD 0 then
          { qq with
            text := u.text
            type := u.type
            required := (if u.required then 1 else 0)
            updated_date := now }
        else qq)) := by
    intro x hx
    obtain ⟨qq, hq, hfq⟩ := List.mem_map.mp hx
    by_cases hid : (qq.id == u.id.getD 0) = true
    · rw [if_pos hid] at hfq
      exact Or.inr (by rw [← hfq])
    · rw [if_neg hid] at hfq
      exact hfq ▸ h qq hq
  have happ : writesStamped Question.updated_date now pre (acc.questions ++
      [⟨acc.nextQuestionId, ti, genCode acc.codeSeed, u.text, u.type,
        (if u.required then 1 else 0), none, "active", now, now, none, none⟩]) := by
    intro x hx
    rcases List.mem_append.mp hx with hx | hx
    · exact h x hx
    · rw [List.mem_singleton] at hx
      subst hx
      exact Or.inr rfl
  unfold editStep
  by_cases ht : (!(idFalsy u.id)) = true
  · rw [if_pos ht]
    cases hop : u.options with
    | some opts =>
      simp only [hop]
      rw [optInsert_foldl_questions]
      exact hmap
    | none =>
      simp only [hop]
      exact hmap
  · rw [if_neg ht]
    cases hop : u.options with
    | some opts =>
      simp only [hop]
      rw [optInsert_foldl_questions]
      exact happ
    | none =>
      simp only [hop]
      exact happ

/-- Options written by an `editCustomGoal` question update are stamped. -/
theorem editStep_o_stamp (now : Timestamp) (ti : Int) (pre : List ResponseOption)
    (acc : DB) (u : QuestionUpdate)
    (h : writesStamped ResponseOption.updated_date now pre acc.responseOptions) :
    writesStamped ResponseOption.updated_date now pre
      (editStep now ti acc u).responseOptions := by
  unfold editStep
  by_cases ht : (!(idFalsy u.id)) = true
  · rw [if_pos ht]
    cases hop : u.options with
    | some opts =>
      simp only [hop]
      intro x hx
      rcases optInsert_foldl_stamp now (u.id.getD 0) _ _ x hx with hx | hx
      · replace hx : x ∈ acc.responseOptions.filter
            (fun o => !(o.question_id == u.id.getD 0)) := hx
        exact h x (List.mem_of_mem_filter hx)
      · exact Or.inr hx
    | none =>
      simp only [hop]
      exact h
  · rw [if_neg ht]
    cases hop : u.options with
    | some opts =>
      simp only [hop]
      intro x hx
      rcases optInsert_foldl_stamp now acc.nextQuestionId _ _ x hx with hx | hx
      · exact h x hx
      · exact Or.inr hx
    | none =>
      simp only [hop]
      exact h

theorem editFold_q_stamp (now : Timestamp) (ti : Int) (pre : List Question)
    (L : List QuestionUpdate) :
    ∀ acc : DB, writesStamped Question.updated_date now pre acc.questions →
      writesStamped Question.updated_date now pre
        ((L.foldl (editStep now ti) acc).questions) := by
  induction L with
  | nil => intro acc h; exact h
  | cons u us ih =>
    intro acc h
    rw [List.foldl_cons]
    exact ih _ (editStep_q_stamp now ti pre acc u h)

theorem editFold_o_stamp (now : Timestamp) (ti : Int) (pre : List ResponseOption)
    (L : List QuestionUpdate) :
    ∀ acc : DB, writesStamped ResponseOption.updated_date now pre acc.responseOptions →
      writesStamped ResponseOption.updated_date now pre
        ((L.foldl (editStep now ti) acc).responseOptions) := by
  induction L with
  | nil => intro acc h; exact h
  | cons u us ih =>
    intro acc h
    rw [List.foldl_cons]
    exact ih _ (editStep_o_stamp now ti pre acc u h)

/-- The name-update stage stamps the item rows it rewrites. -/
theorem editNameStage_i_stamp (now : Timestamp) (ti : Int) (nameUpd : Option String)
    (db : DB) :
    writesStamped TrackItem.updated_date now db.trackItems
      (editNameStage now ti nameUpd db).trackItems := by
  unfold editNameStage
  split
  · split
    · exact stamp_refl _ _ _
    · intro x hx
      obtain ⟨i, hi, hfi⟩ := List.mem_map.mp hx
      by_cases hid : (i.id == ti) = true
      · rw [if_pos hid] at hfi
        exact Or.inr (by rw [← hfi])
      · rw [if_neg hid] at hfi
        exact hfi ▸ Or.inl hi
  · exact stamp_refl _ _ _

/-- `editCustomGoal` stamps every item, question and option row it writes. -/
theorem editGoal_stamp (now : Timestamp) (ti : Int) (nameUpd : Option String)
    (qUpd : Option (List QuestionUpdate)) (db : DB) :
    writesStamped TrackItem.updated_date now db.trackItems
      (editCustomGoal now ti nameUpd qUpd db).trackItems ∧
    writesStamped Question.updated_date now db.questions
      (editCustomGoal now ti nameUpd qUpd db).questions ∧
    writesStamped ResponseOption.updated_date now db.responseOptions
      (editCustomGoal now ti nameUpd qUpd db).responseOptions := by
  have hnI := editNameStage_i_stamp now ti nameUpd db
  have hnQ := editNameStage_questions now ti nameUpd db
  have hnO := editNameStage_options now ti nameUpd db
  cases qUpd with
  | none =>
    refine ⟨hnI, ?_, ?_⟩
    · show writesStamped Question.updated_date now db.questions
        (editNameStage now ti nameUpd db).questions
      rw [hnQ]
      exact stamp_refl _ _ _
    · show writesStamped ResponseOption.updated_date now db.responseOptions
        (editNameStage now ti nameUpd db).responseOptions
      rw [hnO]
      exact stamp_refl _ _ _
  | some qsU =>
    by_cases hempty : qsU.isEmpty = true
    · simp only [editCustomGoal, if_pos hempty]
      exact ⟨hnI, by rw [hnQ]; exact stamp_refl _ _ _, by rw [hnO]; exact stamp_refl _ _ _⟩
    · simp only [editCustomGoal, if_neg hempty]
      refine ⟨?_, ?_, ?_⟩
      · rw [editFold_items]
        exact hnI
      · exact editFold_q_stamp now ti db.questions qsU _
          (by rw [hnQ]; exact stamp_refl _ _ _)
      · exact editFold_o_stamp now ti db.responseOptions qsU _
          (by rw [hnO]; exact stamp_refl _ _ _)

/-- C10: the six writers that close over the module-level `now` stamp every
row they write with that one timestamp (`moduleNow`): entries written by
`ensureSubscribedEntries`, `addTrackItemOnDate` and `removeTrackItemFromDate`,
items/questions/options written by `addCustomGoal` and `editCustomGoal`, and
items/entries written by `removeCustomGoal`; `saveResponse` and
`addOptionToQuestion` instead stamp the timestamp taken at call time
(`callNow`).  Every row of the post-state is a pre-state row or carries the
respective stamp. -/
theorem C10_module_timestamp (tz : Int) (mNow cNow : Timestamp) (userId : String)
    (patientId itemId entryId questionId trackItemId : Int)
    (date name frequency answer label : String)
    (qs : List CustomGoalQuestion) (nameUpd : Option String)
    (qUpd : Option (List QuestionUpdate)) (db : DB) :
    writesStamped TrackItemEntry.updated_date mNow db.trackItemEntries
      (ensureSubscribedEntries tz mNow patientId date db).trackItemEntries ∧
    writesStamped TrackItemEntry.updated_date mNow db.trackItemEntries
      (addTrackItemOnDate tz mNow itemId userId patientId date db).trackItemEntries ∧
    writesStamped TrackItemEntry.updated_date mNow db.trackItemEntries
      (removeTrackItemFromDate mNow itemId patientId db).trackItemEntries ∧
    (∀ (db2 : DB) (newItemId : Int),
      addCustomGoal mNow name frequency qs db = some (db2, newItemId) →
      writesStamped TrackItem.updated_date mNow db.trackItems db2.trackItems ∧
      writesStamped Question.updated_date mNow db.questions db2.questions ∧
      writesStamped ResponseOption.updated_date mNow db.responseOptions
        db2.responseOptions) ∧
    writesStamped TrackItem.updated_date mNow db.trackItems
      (editCustomGoal mNow trackItemId nameUpd qUpd db).trackItems ∧
    writesStamped Question.updated_date mNow db.questions
      (editCustomGoal mNow trackItemId nameUpd qUpd db).questions ∧
    writesStamped ResponseOption.updated_date mNow db.responseOptions
      (editCustomGoal mNow trackItemId nameUpd qUpd db).responseOptions ∧
    writesStamped TrackItem.updated_date mNow db.trackItems
      (removeCustomGoal mNow trackItemId patientId db).trackItems ∧
    writesStamped TrackItemEntry.updated_date mNow db.trackItemEntries
      (removeCustomGoal mNow trackItemId patientId db).trackItemEntries ∧
    writesStamped TrackResponse.updated_date cNow db.trackResponses
      (saveResponse cNow entryId questionId answer userId patientId db).trackResponses ∧
    writesStamped ResponseOption.updated_date cNow db.responseOptions
      (addOptionToQuestion cNow questionId label db).1.responseOptions := by
  refine ⟨ensure_stamp tz mNow patientId date db,
    addTrack_stamp tz mNow itemId userId patientId date db,
    ?_, ?_, (editGoal_stamp mNow trackItemId nameUpd qUpd db).1,
    (editGoal_stamp mNow trackItemId nameUpd qUpd db).2.1,
    (editGoal_stamp mNow trackItemId nameUpd qUpd db).2.2, ?_, ?_, ?_, ?_⟩
  · intro x hx
    obtain ⟨e, he, hfe⟩ := List.mem_map.mp hx
    by_cases hid : (e.patient_id == patientId && e.track_item_id == itemId) = true
    · rw [if_pos hid] at hfe
      exact Or.inr (by rw [← hfe])
    · rw [if_neg hid] at hfe
      exact hfe ▸ Or.inl he
  · intro db2 newItemId hcall
    simp only [addCustomGoal] at hcall
    cases hfc : db.trackCategories.find? (fun c => c.name == "Custom") with
    | none =>
      rw [hfc] at hcall
      cases hcall
    | some category =>
      rw [hfc] at hcall
      simp only [Option.some.injEq, Prod.mk.injEq] at hcall
      obtain ⟨hdb2, _⟩ := hcall
      subst hdb2
      have happ : writesStamped TrackItem.updated_date mNow db.trackItems
          (db.trackItems ++
            [⟨db.nextItemId, category.id, genCode db.codeSeed, name, frequency, "active",
              mNow, mNow⟩]) := by
        intro x hx
        rcases List.mem_append.mp hx with hx | hx
        · exact Or.inl hx
        · rw [List.mem_singleton] at hx
          subst hx
          exact Or.inr rfl
      refine ⟨?_, ?_, ?_⟩
      · rw [addFold_items]
        exact happ
      · exact addFold_q_stamp mNow db.nextItemId db.questions qs _ (stamp_refl _ _ _)
      · exact addFold_o_stamp mNow db.nextItemId db.responseOptions qs _ (stamp_refl _ _ _)
  · intro x hx
    replace hx : x ∈ (db.trackItems.map (fun (i : TrackItem) =>
        if i.id == trackItemId then { i with status := "inactive", updated_date := mNow }
        else i)) := hx
    obtain ⟨i, hi, hfi⟩ := List.mem_map.mp hx
    by_cases hid : (i.id == trackItemId) = true
    · rw [if_pos hid] at hfi
      exact Or.inr (by rw [← hfi])
    · rw [if_neg hid] at hfi
      exact hfi ▸ Or.inl hi
  · intro x hx
    replace hx : x ∈ (db.trackItemEntries.map (fun (e : TrackItemEntry) =>
        if e.track_item_id == trackItemId && e.patient_id == patientId then
          { e with selected := 0, updated_date := mNow } else e)) := hx
    obtain ⟨e, he, hfe⟩ := List.mem_map.mp hx
    by_cases hid : (e.track_item_id == trackItemId && e.patient_id == patientId) = true
    · rw [if_pos hid] at hfe
      exact Or.inr (by rw [← hfe])
    · rw [if_neg hid] at hfe
      exact hfe ▸ Or.inl he
  · simp only [saveResponse]
    split
    next _r _ =>
      intro x hx
      obtain ⟨r, hr, hfr⟩ := List.mem_map.mp hx
      by_cases hm : (r.track_item_entry_id == entryId && r.question_id == questionId &&
          r.user_id == userId && r.patient_id == patientId) = true
      · rw [if_pos hm] at hfr
        exact Or.inr (by rw [← hfr])
      · rw [if_neg hm] at hfr
        exact hfr ▸ Or.inl hr
    next =>
      intro x hx
      rcases List.mem_append.mp hx with hx | hx
      · exact Or.inl hx
      · rw [List.mem_singleton] at hx
        subst hx
        exact Or.inr rfl
  · intro x hx
    replace hx : x ∈ db.responseOptions ++
        [⟨db.nextOptionId, questionId, "", label, "", cNow, cNow⟩] := hx
    rcases List.mem_append.mp hx with hx | hx
    · exact Or.inl hx
    · rw [List.mem_singleton] at hx
      subst hx
      exact Or.inr rfl

/-- A concrete database for the C10 witness. -/
def c10db : DB :=
  { patients := [⟨7, "u"⟩]
    trackCategories := [⟨1, "Custom", "active"⟩]
    trackItems := [⟨9, 1, "ic", "Goal", "daily", "active", ⟨2024, 1, 1, 0⟩, ⟨2024, 1, 1, 0⟩⟩]
    questions := [⟨5, 9, "qc", "Q?", "text", 0, none, "active", ⟨2024, 1, 1, 0⟩,
      ⟨2024, 1, 1, 0⟩, none, none⟩]
    responseOptions := []
    trackItemEntries := [⟨1, "u", 7, 9, "01-01-2024", 1, ⟨2024, 1, 1, 0⟩, ⟨2024, 1, 1, 0⟩⟩]
    trackResponses := []
    nextItemId := 10
    nextQuestionId := 6
    nextOptionId := 1
    nextEntryId := 2
    nextResponseId := 1
    codeSeed := 0 }

/-- Witness for C10: concrete rows written by `removeTrackItemFromDate`,
`addCustomGoal`, `saveResponse` and `addOptionToQuestion` on `c10db` are
pre-existing or stamped. -/
theorem C10_module_timestamp_witness :
    ((⟨1, "u", 7, 9, "01-01-2024", 0, ⟨2024, 1, 1, 0⟩, ⟨2024, 1, 2, 0⟩⟩ : TrackItemEntry)
        ∈ c10db.trackItemEntries ∨
      (⟨1, "u", 7, 9, "01-01-2024", 0, ⟨2024, 1, 1, 0⟩,
        ⟨2024, 1, 2, 0⟩⟩ : TrackItemEntry).updated_date = ⟨2024, 1, 2, 0⟩) ∧
    ((⟨10, 1, genCode 0, "G", "daily", "active", ⟨2024, 1, 2, 0⟩,
        ⟨2024, 1, 2, 0⟩⟩ : TrackItem) ∈ c10db.trackItems ∨
      (⟨10, 1, genCode 0, "G", "daily", "active", ⟨2024, 1, 2, 0⟩,
        ⟨2024, 1, 2, 0⟩⟩ : TrackItem).updated_date = ⟨2024, 1, 2, 0⟩) ∧
    ((⟨1, "u", 7, 5, 1, jsonStringify "hi", ⟨2024, 1, 3, 0⟩,
        ⟨2024, 1, 3, 0⟩⟩ : TrackResponse) ∈ c10db.trackResponses ∨
      (⟨1, "u", 7, 5, 1, jsonStringify "hi", ⟨2024, 1, 3, 0⟩,
        ⟨2024, 1, 3, 0⟩⟩ : TrackResponse).updated_date = ⟨2024, 1, 3, 0⟩) ∧
    ((⟨1, 5, "", "L", "", ⟨2024, 1, 3, 0⟩, ⟨2024, 1, 3, 0⟩⟩ : ResponseOption)
        ∈ c10db.responseOptions ∨
      (⟨1, 5, "", "L", "", ⟨2024, 1, 3, 0⟩,
        ⟨2024, 1, 3, 0⟩⟩ : ResponseOption).updated_date = ⟨2024, 1, 3, 0⟩) := by
  have H := C10_module_timestamp 0 ⟨2024, 1, 2, 0⟩ ⟨2024, 1, 3, 0⟩ "u" 7 9 1 5 9
    "01-01-2024" "G" "daily" "hi" "L" [] none none c10db
  refine ⟨H.2.2.1 _ (by decide), ?_, H.2.2.2.2.2.2.2.2.2.1 _ (by decide),
    H.2.2.2.2.2.2.2.2.2.2 _ (by decide)⟩
  exact (H.2.2.2.1
      { c10db with
        trackItems := c10db.trackItems ++
          [⟨10, 1, genCode 0, "G", "daily", "active", ⟨2024, 1, 2, 0⟩, ⟨2024, 1, 2, 0⟩⟩]
        nextItemId := 11
        codeSeed := 1 }
      10 (by decide)).1 _ (by decide)

end Caremap
